import Mathlib

/-!
# Oracle node protocol layer: full-state sync, gossip dispatch, stream framing, startup

A shallow embedding of `pkg/oracle_node_listener.go`, `pkg/oracle_node.go` and
`cmd/node-lite/main.go`.

Conventions of the embedding.

* A Go `[]byte` is a list of byte values (`Bytes`); a nil slice and an empty slice are
  both `[]`, except where a function returns the literal `nil` on an error path, which
  is kept apart as `none`.
* Go `int` values that count records and pages are natural numbers. Record counts are
  slice lengths and `PageSize` is a compile-time constant, far below `2 ^ 53`, so the
  `float64` division under `math.Ceil` is exact and no `int` operation wraps.
* Collaborators whose code lives outside these files (the JSON codec, the registry, the
  transport, the pub/sub fabric) are parameters: a function for a codec, the sequence
  of values a call returns for a shared mutable store, a flag for an I/O outcome.
* Effects are recorded as event logs, in program order.
-/

namespace Masa

/-- A Go byte slice; each element stands for one byte value. -/
abbrev Bytes := List Nat

/-- Modelled from the spec: `pubsub2.NodeData` is declared in `pkg/pubsub`, outside these
files. It is one record per peer identity carrying an activity tag plus opaque state
owned by the registry; the code here reads only `PeerId` and `Activity`. -/
structure NodeData where
  PeerId : String
  Activity : Int
  State : String
deriving DecidableEq, Repr

/-- The wire envelope `NodeDataPage` of `oracle_node_listener.go`. -/
structure NodeDataPage where
  Data : List NodeData
  PageNumber : Nat
  TotalPages : Nat
  TotalRecords : Nat
deriving DecidableEq, Repr

/-- The value `int(math.Ceil(float64(totalRecords) / PageSize))`. -/
def totalPagesOf (PageSize totalRecords : Nat) : Nat :=
  (totalRecords + PageSize - 1) / PageSize

/-- The Go slice expression `a[lo:hi]` for `hi ≤ len(a)`: it panics (`none`) when
`lo > hi`, otherwise it is the elements at positions `lo .. hi - 1`. -/
def goSlice {α : Type} (a : List α) (lo hi : Nat) : Option (List α) :=
  if lo ≤ hi then some ((a.take hi).drop lo) else none

/-- The index `startIndex` of `SendNodeDataPage`. -/
def startIndex (PageSize pageNumber : Nat) : Nat :=
  pageNumber * PageSize

/-- The index `endIndex` of `SendNodeDataPage`, after the clamp to `totalRecords`. -/
def endIndex (PageSize totalRecords pageNumber : Nat) : Nat :=
  if startIndex PageSize pageNumber + PageSize > totalRecords then totalRecords
  else startIndex PageSize pageNumber + PageSize

/-- Lines 62-76 of `SendNodeDataPage`: the page built from the registry contents
`allNodeData` read by this call; `none` is the slice-bounds panic. -/
def buildPage (PageSize : Nat) (allNodeData : List NodeData) (pageNumber : Nat) :
    Option NodeDataPage :=
  let totalRecords := allNodeData.length
  let totalPages := totalPagesOf PageSize totalRecords
  match goSlice allNodeData (startIndex PageSize pageNumber)
      (endIndex PageSize totalRecords pageNumber) with
  | none => none
  | some data =>
    some { Data := data, PageNumber := pageNumber, TotalPages := totalPages,
           TotalRecords := totalRecords }

/-- What one `SendNodeDataPage` call does to the stream. -/
inductive SendEvent where
  /-- The call `stream.Write(append(jsonData, '\n'))`, with the page that was marshalled. -/
  | write (page : NodeDataPage) (line : Bytes)
  /-- The call `json.Marshal` failed: logged, nothing written. -/
  | marshalError (page : NodeDataPage)
deriving DecidableEq, Repr

/-- The function `SendNodeDataPage`: `none` is the slice-bounds panic, otherwise the
event of this call. `allNodeData` is what `node.NodeTracker.GetAllNodeData()` returns to this call.
The error of `stream.Write` is only logged, so it does not enter the control flow. -/
def SendNodeDataPage (PageSize : Nat) (marshal : NodeDataPage → Option Bytes)
    (allNodeData : List NodeData) (pageNumber : Nat) : Option SendEvent :=
  match buildPage PageSize allNodeData pageNumber with
  | none => none
  | some nodeDataPage =>
    match marshal nodeDataPage with
    | none => some (SendEvent.marshalError nodeDataPage)
    | some jsonData => some (SendEvent.write nodeDataPage (jsonData ++ [10]))

/-- How a `SendNodeData` call ends. -/
inductive SendOutcome where
  /-- The call `Host.NewStream` failed: logged, nothing written. -/
  | streamError
  /-- The loop ran to its end and the deferred `stream.Close()` closed the stream. -/
  | done (log : List SendEvent)
  /-- A page panicked after the events of `log`; the deferred close runs, then the panic
  propagates out of the goroutine. -/
  | panicked (log : List SendEvent)
deriving DecidableEq, Repr

/-- The `for pageNumber := ...; pageNumber < totalPages; pageNumber++` loop of
`SendNodeData` with `remaining = totalPages - pageNumber` iterations left.
`GetAllNodeData k` is what the `k`-th registry read of this send returns: read `0` is
the one of `SendNodeData`, read `i + 1` the one of `SendNodeDataPage` for page `i`. -/
def sendLoop (PageSize : Nat) (marshal : NodeDataPage → Option Bytes)
    (GetAllNodeData : Nat → List NodeData) :
    (remaining pageNumber : Nat) → List SendEvent → SendOutcome
  | 0, _, log => SendOutcome.done log
  | remaining + 1, pageNumber, log =>
    match SendNodeDataPage PageSize marshal (GetAllNodeData (pageNumber + 1)) pageNumber with
    | none => SendOutcome.panicked log
    | some ev => sendLoop PageSize marshal GetAllNodeData remaining (pageNumber + 1) (log ++ [ev])

/-- The function `SendNodeData`: one registry read for the page count, the stream open
to `peerID` (`NewStream peerID` tells whether `Host.NewStream` succeeds), then one
`SendNodeDataPage` per page number. -/
def SendNodeData (PageSize : Nat) (marshal : NodeDataPage → Option Bytes)
    (NewStream : String → Bool) (GetAllNodeData : Nat → List NodeData)
    (peerID : String) : SendOutcome :=
  let allNodeData := GetAllNodeData 0
  let totalRecords := allNodeData.length
  let totalPages := totalPagesOf PageSize totalRecords
  if NewStream peerID then sendLoop PageSize marshal GetAllNodeData totalPages 0 []
  else SendOutcome.streamError

/-- The pages handed to `stream.Write`, in order. -/
def pagesWritten : List SendEvent → List NodeDataPage
  | [] => []
  | SendEvent.write page _ :: rest => page :: pagesWritten rest
  | SendEvent.marshalError _ :: rest => pagesWritten rest

/-- The bytes handed to `stream.Write`, in order. -/
def bytesWritten : List SendEvent → Bytes
  | [] => []
  | SendEvent.write _ line :: rest => line ++ bytesWritten rest
  | SendEvent.marshalError _ :: rest => bytesWritten rest

/-- The event log of a send; a send that opened no stream has none. -/
def SendOutcome.log : SendOutcome → List SendEvent
  | SendOutcome.streamError => []
  | SendOutcome.done log => log
  | SendOutcome.panicked log => log

/-! ### Receiving a full sync -/

/-- The constant `bufio.MaxScanTokenSize`, the buffer limit of a default scanner. -/
def MaxScanTokenSize : Nat := 64 * 1024

/-- The helper `dropCR` of `bufio`: drop one trailing `\r`. -/
def dropCR (data : Bytes) : Bytes :=
  if data.getLast? = some 13 then data.dropLast else data

/-- The tokens a `bufio.Scanner` with the default split function (`ScanLines`) and the
default buffer yields over the bytes `stream` delivers before it ends; `cur` holds the
bytes of the line being read. A newline ends a line; a last line without newline is
still a token; a line whose content reaches `MaxScanTokenSize` bytes before its newline
is seen ends the scan (`ErrTooLong`). -/
def scanLines : Bytes → Bytes → List Bytes
  | cur, [] => if cur = [] then [] else [dropCR cur]
  | cur, b :: stream =>
    if b = 10 then dropCR cur :: scanLines [] stream
    else if MaxScanTokenSize ≤ cur.length + 1 then []
    else scanLines (cur ++ [b]) stream

/-- The registry merge entrypoint `NodeTracker.HandleNodeData`, seen from this layer:
the log of the records it has been called with, in call order. -/
def HandleNodeData (calls : List NodeData) (nodeData : NodeData) : List NodeData :=
  calls ++ [nodeData]

/-- The `for scanner.Scan()` loop of `ReceiveNodeData` over the tokens still to come:
a token that does not unmarshal is logged and skipped, every record of a page that
does is handed to `HandleNodeData`. -/
def receiveLoop (unmarshal : Bytes → Option NodeDataPage) :
    List Bytes → List NodeData → List NodeData
  | [], calls => calls
  | data :: tokens, calls =>
    match unmarshal data with
    | none => receiveLoop unmarshal tokens calls
    | some page => receiveLoop unmarshal tokens (page.Data.foldl HandleNodeData calls)

/-- The function `ReceiveNodeData` on a peer whose merge entrypoint has been called with
`calls` so far: a scanner over the stream, then the loop. Returns the merge calls
made. -/
def ReceiveNodeData (unmarshal : Bytes → Option NodeDataPage) (stream : Bytes)
    (calls : List NodeData) : List NodeData :=
  receiveLoop unmarshal (scanLines [] stream) calls

/-! ### Inbound gossip and the stream framing helper -/

/-- The function `HandleMessage` on the payload `msg.Data`: the merge calls after the
handler returns. -/
def HandleMessage (unmarshal : Bytes → Option NodeData) (calls : List NodeData)
    (msgData : Bytes) : List NodeData :=
  match unmarshal msgData with
  | none => calls
  | some nodeData => HandleNodeData calls nodeData

/-- The error of one `stream.Read` call. -/
inductive ReadError where
  /-- The clean end of stream `io.EOF`. -/
  | EOF
  /-- Any other error. -/
  | other (msg : String)
deriving DecidableEq, Repr

/-- The read loop of `handleStreamData` over the results `(jsonData[:n], err)` of the
`stream.Read` calls still to come, with `buffer` accumulated so far. The outer `none`
is a `Read` that never returns (no result left); `some none` is `return nil`;
`some (some b)` is `return buffer.Bytes()`. -/
def readLoop : List (Bytes × Option ReadError) → Bytes → Option (Option Bytes)
  | [], _ => none
  | (chunk, err) :: reads, buffer =>
    let buffer := if chunk.length > 0 then buffer ++ chunk else buffer
    match err with
    | none => readLoop reads buffer
    | some ReadError.EOF => some (some buffer)
    | some (ReadError.other _) => some none

/-- The function `handleStreamData` over the results of the successive `stream.Read` calls. -/
def handleStreamData (reads : List (Bytes × Option ReadError)) : Option (Option Bytes) :=
  readLoop reads []

/-- The function `GossipNodeData`: read one payload with `handleStreamData`, unmarshal it (a nil
payload is the empty byte slice), forward it. `none` when the read never returns. -/
def GossipNodeData (unmarshal : Bytes → Option NodeData) (calls : List NodeData)
    (reads : List (Bytes × Option ReadError)) : Option (List NodeData) :=
  match handleStreamData reads with
  | none => none
  | some data => some (HandleMessage unmarshal calls (data.getD []))

/-- A dispatcher that hands inbound pub/sub payloads to `HandleMessage` one after the
other. -/
def dispatchMessages (unmarshal : Bytes → Option NodeData) :
    List Bytes → List NodeData → List NodeData
  | [], calls => calls
  | msgData :: msgs, calls =>
    dispatchMessages unmarshal msgs (HandleMessage unmarshal calls msgData)

/-- Inbound gossip streams handled by `GossipNodeData` one after the other. -/
def dispatchStreams (unmarshal : Bytes → Option NodeData) :
    List (List (Bytes × Option ReadError)) → List NodeData → Option (List NodeData)
  | [], calls => some calls
  | reads :: streams, calls =>
    match GossipNodeData unmarshal calls reads with
    | none => none
    | some calls => dispatchStreams unmarshal streams calls

/-! ### The registry change dispatch loop -/

/-- One value received from `NodeTracker.NodeDataChan`, together with what the
collaborators do while it is handled: whether `PubSubManager.Publish` returns nil, and
the registry reads seen by a full sync started for it. -/
structure Notification where
  nodeData : NodeData
  publishOk : Bool
  GetAllNodeData : Nat → List NodeData

/-- What `ListenToNodeTracker` does for one notification. -/
inductive ListenerEvent where
  /-- The call `json.Marshal(nodeData)` failed: logged, `continue`. -/
  | marshalError (nodeData : NodeData)
  /-- The call `PubSubManager.Publish(NodeGossipTopic, jsonData)`; `ok` tells whether
  it returned nil (an error is only logged). -/
  | publish (jsonData : Bytes) (ok : Bool)
  /-- The statement `go node.SendNodeData(peerID)`, with how that send ends. -/
  | goSendNodeData (peerID : String) (outcome : SendOutcome)
deriving DecidableEq, Repr

/-- The body of the `case nodeData := <-node.NodeTracker.NodeDataChan` branch. -/
def handleNotification (ActivityJoined : Int) (PageSize : Nat)
    (marshalNode : NodeData → Option Bytes) (marshalPage : NodeDataPage → Option Bytes)
    (NewStream : String → Bool) (n : Notification) : List ListenerEvent :=
  match marshalNode n.nodeData with
  | none => [ListenerEvent.marshalError n.nodeData]
  | some jsonData =>
    ListenerEvent.publish jsonData n.publishOk ::
      (if n.nodeData.Activity = ActivityJoined then
        [ListenerEvent.goSendNodeData n.nodeData.PeerId
          (SendNodeData PageSize marshalPage NewStream n.GetAllNodeData n.nodeData.PeerId)]
      else [])

/-- The function `ListenToNodeTracker` over the notifications received before
`node.Context.Done()` is selected. `ActivityJoined` is the constant `pubsub2.ActivityJoined`, declared
outside these files. -/
def ListenToNodeTracker (ActivityJoined : Int) (PageSize : Nat)
    (marshalNode : NodeData → Option Bytes) (marshalPage : NodeDataPage → Option Bytes)
    (NewStream : String → Bool) : List Notification → List ListenerEvent
  | [] => []
  | n :: rest =>
    handleNotification ActivityJoined PageSize marshalNode marshalPage NewStream n ++
      ListenToNodeTracker ActivityJoined PageSize marshalNode marshalPage NewStream rest

/-- The full-sync sends started in a listener log: the peer each one is addressed to. -/
def sendsStarted : List ListenerEvent → List String
  | [] => []
  | ListenerEvent.goSendNodeData peerID _ :: rest => peerID :: sendsStarted rest
  | ListenerEvent.marshalError _ :: rest => sendsStarted rest
  | ListenerEvent.publish _ _ :: rest => sendsStarted rest

/-- The gossip publishes attempted in a listener log: the payload of each one. -/
def publishesAttempted : List ListenerEvent → List Bytes
  | [] => []
  | ListenerEvent.publish jsonData _ :: rest => jsonData :: publishesAttempted rest
  | ListenerEvent.marshalError _ :: rest => publishesAttempted rest
  | ListenerEvent.goSendNodeData _ _ :: rest => publishesAttempted rest

/-! ### Startup -/

/-- The outcome of each fallible call `Start` makes: `none` is a nil error. -/
structure StartEnv where
  WithMDNS : Option String
  GetBootNodesMultiAddress : Option String
  WithDht : Option String
  AddSubscriptionGossip : Option String
  AddSubscriptionAd : Option String
deriving DecidableEq, Repr

/-- What `Start` sets in motion, in program order. -/
inductive StartEffect where
  | setStreamHandlers
  | notifyNodeTracker
  | goListenToNodeTracker
  | goHandleDiscoveredPeers
  | withMDNS
  | withDht
  | goDiscover
  | subscribedGossip
  | subscribedAd
deriving DecidableEq, Repr

/-- The effects `Start` has before its first fallible call. -/
def startPrelude : List StartEffect :=
  [StartEffect.setStreamHandlers, StartEffect.notifyNodeTracker,
   StartEffect.goListenToNodeTracker, StartEffect.goHandleDiscoveredPeers]

/-- The function `Start`: the returned error (`none` is nil) and the effects it had. -/
def Start (env : StartEnv) : Option String × List StartEffect :=
  match env.WithMDNS with
  | some err => (some err, startPrelude)
  | none =>
    match env.GetBootNodesMultiAddress with
    | some err => (some err, startPrelude ++ [StartEffect.withMDNS])
    | none =>
      match env.WithDht with
      | some err => (some err, startPrelude ++ [StartEffect.withMDNS])
      | none =>
        match env.AddSubscriptionGossip with
        | some err =>
          (some err, startPrelude ++
            [StartEffect.withMDNS, StartEffect.withDht, StartEffect.goDiscover])
        | none =>
          match env.AddSubscriptionAd with
          | some _ =>
            (none, startPrelude ++ [StartEffect.withMDNS, StartEffect.withDht,
              StartEffect.goDiscover, StartEffect.subscribedGossip])
          | none =>
            (none, startPrelude ++ [StartEffect.withMDNS, StartEffect.withDht,
              StartEffect.goDiscover, StartEffect.subscribedGossip,
              StartEffect.subscribedAd])

/-- How `main` goes on after building the node. -/
inductive MainOutcome where
  /-- The call `logrus.Fatal(err)`: the process exits. -/
  | fatal (err : String)
  /-- The statement `<-ctx.Done()`: the process stays up with the effects `Start` had. -/
  | waiting (effects : List StartEffect)
deriving DecidableEq, Repr

/-- Lines 92-98 of `main`: `NewOracleNode` (its error, `none` for nil), then
`node.Start()` with its result discarded, then the wait for cancellation. -/
def main (NewOracleNode : Option String) (env : StartEnv) : MainOutcome :=
  match NewOracleNode with
  | some err => MainOutcome.fatal err
  | none => MainOutcome.waiting (Start env).2

/-! ### Reading a send log against a snapshot -/

/-- The records at positions `lo .. hi - 1` of a snapshot. -/
def recordsBetween (R : List NodeData) (lo hi : Nat) : List NodeData :=
  (R.drop lo).take (hi - lo)

/-- The page with number `i` of a snapshot `R` cut into pages of `K` records. -/
def pageAt (K : Nat) (R : List NodeData) (i : Nat) : NodeDataPage :=
  { Data := recordsBetween R (i * K) (min R.length ((i + 1) * K))
    PageNumber := i
    TotalPages := totalPagesOf K R.length
    TotalRecords := R.length }

/-- The event of a page that reaches `json.Marshal`. -/
def eventOf (marshal : NodeDataPage → Option Bytes) (page : NodeDataPage) : SendEvent :=
  match marshal page with
  | none => SendEvent.marshalError page
  | some jsonData => SendEvent.write page (jsonData ++ [10])


/-- The record lists of a sequence of pages, concatenated in order. -/
def recordsOf (pages : List NodeDataPage) : List NodeData :=
  (pages.map NodeDataPage.Data).flatten


/-! ### Sample data -/

/-- A sample record. -/
def recordA : NodeData := { PeerId := "peerA", Activity := 0, State := "a" }

/-- A second sample record. -/
def recordB : NodeData := { PeerId := "peerB", Activity := 1, State := "b" }

/-- A third sample record. -/
def recordC : NodeData := { PeerId := "peerC", Activity := 0, State := "c" }

/-- A transport on which every stream opens. -/
def openTransport : String → Bool := fun _ => true

/-- A page marshaller that always succeeds, with an empty body. -/
def blankMarshal : NodeDataPage → Option Bytes := fun _ => some []

/-- A registry that holds two records at the first two reads of a send and has gained a
third one from the third read on. -/
def growingRegistry : Nat → List NodeData := fun k =>
  if k ≤ 1 then [recordA, recordB] else [recordA, recordB, recordC]


/-! ### Lines on the sync stream -/

/-- A byte string that the scanner hands over unchanged as one token: it holds no
newline, does not end in `\r`, and is shorter than the scanner buffer. -/
def IsLine (j : Bytes) : Prop :=
  10 ∉ j ∧ j.getLast? ≠ some 13 ∧ j.length < MaxScanTokenSize

instance (j : Bytes) : Decidable (IsLine j) := by
  unfold IsLine
  infer_instance

/-- A page that travels as one line through the codec: it marshals to a line that
unmarshals back to it. -/
def TravelsAsLine (marshal : NodeDataPage → Option Bytes)
    (unmarshal : Bytes → Option NodeDataPage) (page : NodeDataPage) : Prop :=
  ∃ j, marshal page = some j ∧ unmarshal j = some page ∧ IsLine j

/-- First page of the records A, B, C in pages of two. -/
def pageAB : NodeDataPage :=
  { Data := [recordA, recordB], PageNumber := 0, TotalPages := 2, TotalRecords := 3 }

/-- Second page of the records A, B, C in pages of two. -/
def pageC : NodeDataPage :=
  { Data := [recordC], PageNumber := 1, TotalPages := 2, TotalRecords := 3 }

/-- A page codec given by a table of two pages: the marshalling side. -/
def tableMarshal : NodeDataPage → Option Bytes := fun p =>
  if p = pageAB then some [123, 48, 125]
  else if p = pageC then some [123, 49, 125]
  else none

/-- A page codec given by a table of two pages: the unmarshalling side. -/
def tableUnmarshal : Bytes → Option NodeDataPage := fun j =>
  if j = [123, 48, 125] then some pageAB
  else if j = [123, 49, 125] then some pageC
  else none


/-! ### Sample notifications -/

/-- A record marshaller that always succeeds. -/
def plainMarshalNode : NodeData → Option Bytes := fun _ => some [123, 125]

/-- A record marshaller that always fails. -/
def failingMarshalNode : NodeData → Option Bytes := fun _ => none

/-- A transport on which no stream opens. -/
def closedTransport : String → Bool := fun _ => false

/-- The notification of record A, whose activity tag is `0`, with a failing publish. -/
def noticeA : Notification :=
  { nodeData := recordA, publishOk := false, GetAllNodeData := fun _ => [recordA] }

/-- The notification of record B, whose activity tag is `1`. -/
def noticeB : Notification :=
  { nodeData := recordB, publishOk := true, GetAllNodeData := fun _ => [recordA, recordB] }


/-! ### Sample stream reads and startup outcomes -/

/-- The results of the reads of a stream that delivers the chunks `pre` without error
and then `chunk` together with the error `err`; `rest` is never read. -/
def readsEnding (pre : List Bytes) (chunk : Bytes) (err : ReadError)
    (rest : List (Bytes × Option ReadError)) : List (Bytes × Option ReadError) :=
  pre.map (fun c => (c, none)) ++ (chunk, some err) :: rest

/-- A startup in which only the subscription to the ad topic fails. -/
def adSubscriptionFails : StartEnv :=
  { WithMDNS := none, GetBootNodesMultiAddress := none, WithDht := none,
    AddSubscriptionGossip := none, AddSubscriptionAd := some "subscribe failed" }

/-- A startup in which the mDNS setup fails. -/
def mdnsFails : StartEnv :=
  { WithMDNS := some "mdns failed", GetBootNodesMultiAddress := none, WithDht := none,
    AddSubscriptionGossip := none, AddSubscriptionAd := none }


/-- A record codec given by a table of one record: the unmarshalling side. -/
def tableUnmarshalNode : Bytes → Option NodeData := fun j =>
  if j = [123, 65, 125] then some recordA else none


/-! ### The discovery reaction loop -/

/-- The address record `peer.AddrInfo` of libp2p: a peer id and its addresses. -/
structure AddrInfo where
  ID : String
  Addrs : List String
deriving DecidableEq, Repr

/-- Modelled from the spec: `myNetwork.PeerEvent` is declared in `pkg/network`, outside
these files. It is the ephemeral value `{source, action, address}` produced once per
discovery observation. -/
structure PeerEvent where
  AddrInfo : AddrInfo
  Action : String
  Source : String
deriving DecidableEq, Repr

/-- One value received from `node.PeerChan`, together with what the transport does
while it is handled: whether `Host.Connect` returns nil and whether `Host.NewStream`
returns nil. -/
structure Discovery where
  peer : PeerEvent
  connectOk : Bool
  newStreamOk : Bool
deriving DecidableEq, Repr

/-- What `handleDiscoveredPeers` does for one peer event. -/
inductive DiscoveryEvent where
  /-- The call `Host.Connect(node.Context, peer.AddrInfo)`; `ok` tells whether it
  returned nil. -/
  | connect (addr : AddrInfo) (ok : Bool)
  /-- The call `Host.NewStream(node.Context, peer.AddrInfo.ID, node.Protocol)`; `ok`
  tells whether it returned nil. -/
  | newStream (peerID : String) (protocol : String) (ok : Bool)
  /-- The statement `go node.writeData(rw, peer, stream)` over the stream to `peerID`. -/
  | goWriteData (peer : PeerEvent) (peerID : String)
  /-- The statement `go node.readData(rw, peer, stream)` over the stream to `peerID`. -/
  | goReadData (peer : PeerEvent) (peerID : String)
deriving DecidableEq, Repr

/-- The body of the `case peer := <-node.PeerChan` branch of `handleDiscoveredPeers`. -/
def handlePeerEvent (Protocol : String) (d : Discovery) : List DiscoveryEvent :=
  if d.connectOk then
    if d.newStreamOk then
      [DiscoveryEvent.connect d.peer.AddrInfo true,
       DiscoveryEvent.newStream d.peer.AddrInfo.ID Protocol true,
       DiscoveryEvent.goWriteData d.peer d.peer.AddrInfo.ID,
       DiscoveryEvent.goReadData d.peer d.peer.AddrInfo.ID]
    else
      [DiscoveryEvent.connect d.peer.AddrInfo true,
       DiscoveryEvent.newStream d.peer.AddrInfo.ID Protocol false]
  else [DiscoveryEvent.connect d.peer.AddrInfo false]

/-- The function `handleDiscoveredPeers` over the peer events received before
`node.Context.Done()` is selected; `Protocol` is `node.Protocol`. -/
def handleDiscoveredPeers (Protocol : String) : List Discovery → List DiscoveryEvent
  | [] => []
  | d :: rest => handlePeerEvent Protocol d ++ handleDiscoveredPeers Protocol rest

/-- The connect attempts of a discovery log: the address of each one. -/
def connectsAttempted : List DiscoveryEvent → List AddrInfo
  | [] => []
  | DiscoveryEvent.connect addr _ :: rest => addr :: connectsAttempted rest
  | DiscoveryEvent.newStream _ _ _ :: rest => connectsAttempted rest
  | DiscoveryEvent.goWriteData _ _ :: rest => connectsAttempted rest
  | DiscoveryEvent.goReadData _ _ :: rest => connectsAttempted rest

/-- The stream opens attempted in a discovery log: the peer and protocol of each one. -/
def streamOpensAttempted : List DiscoveryEvent → List (String × String)
  | [] => []
  | DiscoveryEvent.newStream peerID protocol _ :: rest =>
    (peerID, protocol) :: streamOpensAttempted rest
  | DiscoveryEvent.connect _ _ :: rest => streamOpensAttempted rest
  | DiscoveryEvent.goWriteData _ _ :: rest => streamOpensAttempted rest
  | DiscoveryEvent.goReadData _ _ :: rest => streamOpensAttempted rest

/-- The writer tasks started in a discovery log: the peer event of each one. -/
def writersStarted : List DiscoveryEvent → List PeerEvent
  | [] => []
  | DiscoveryEvent.goWriteData peer _ :: rest => peer :: writersStarted rest
  | DiscoveryEvent.connect _ _ :: rest => writersStarted rest
  | DiscoveryEvent.newStream _ _ _ :: rest => writersStarted rest
  | DiscoveryEvent.goReadData _ _ :: rest => writersStarted rest

/-- The reader tasks started in a discovery log: the peer event of each one. -/
def readersStarted : List DiscoveryEvent → List PeerEvent
  | [] => []
  | DiscoveryEvent.goReadData peer _ :: rest => peer :: readersStarted rest
  | DiscoveryEvent.connect _ _ :: rest => readersStarted rest
  | DiscoveryEvent.newStream _ _ _ :: rest => readersStarted rest
  | DiscoveryEvent.goWriteData _ _ :: rest => readersStarted rest

/-! ### The liveness reader -/

/-- The call `rw.ReadString('\n')` on a buffered reader over the bytes `stream` still
delivers before its read fails: the string returned and, when the newline was found
(nil error), the bytes left for the next call. The rest `none` is the read error met
before a newline, returned together with the bytes read so far. -/
def ReadString : Bytes → Bytes × Option Bytes
  | [] => ([], none)
  | b :: stream =>
    if b = 10 then ([10], some stream)
    else
      match ReadString stream with
      | (str, rest) => (b :: str, rest)

/-- Which `return` of `readData` ended the task. -/
inductive ReadEnd where
  /-- The branch `if err != nil`: logged, return. -/
  | readError
  /-- The branch `if str == ""`: return. -/
  | emptyString
deriving DecidableEq, Repr

/-- What `readData` has done when it returns: the strings it printed, in order, and
the `return` taken. Every `return` runs the deferred `stream.Close()`. -/
structure ReadDataResult where
  echoed : List Bytes
  ending : ReadEnd
deriving DecidableEq, Repr

/-- The `for` loop of `readData` with `fuel` iterations allowed, over the bytes the
stream still delivers before its read fails; `none` when the iterations run out. -/
def readDataLoop : Nat → Bytes → List Bytes → Option ReadDataResult
  | 0, _, _ => none
  | fuel + 1, stream, echoed =>
    match ReadString stream with
    | (_, none) => some { echoed := echoed, ending := ReadEnd.readError }
    | (str, some rest) =>
      if str = [] then some { echoed := echoed, ending := ReadEnd.emptyString }
      else if str ≠ [10] then readDataLoop fuel rest (echoed ++ [str])
      else readDataLoop fuel rest echoed

/-- The function `readData` over a stream that delivers the bytes `stream` and then
fails the read (end of stream or another error). Every successful `ReadString`
consumes at least its newline, so `stream.length + 1` iterations are enough. -/
def readData (stream : Bytes) : Option ReadDataResult :=
  readDataLoop (stream.length + 1) stream []

/-- The bytes of a sequence of lines on the wire: each line followed by a newline, then
an unfinished fragment `tail`. -/
def wireOf (lines : List Bytes) (tail : Bytes) : Bytes :=
  (lines.map (fun l => l ++ [10])).flatten ++ tail


/-! ### Sample discoveries -/

/-- A peer event for peer B. -/
def eventB : PeerEvent :=
  { AddrInfo := { ID := "peerB", Addrs := ["/ip4/10.0.0.2/tcp/4001"] },
    Action := "Joined", Source := "mdns" }

/-- A discovery of peer B whose connect fails. -/
def unreachableB : Discovery :=
  { peer := eventB, connectOk := false, newStreamOk := true }

/-- A discovery of peer B whose connect succeeds and whose stream does not open. -/
def streamlessB : Discovery :=
  { peer := eventB, connectOk := true, newStreamOk := false }

/-- A discovery of peer B whose connect and stream open both succeed. -/
def reachableB : Discovery :=
  { peer := eventB, connectOk := true, newStreamOk := true }


/-! ### Lines and the scanner buffer -/

/-- A line that fits the scanner buffer: it holds no newline and is shorter than
`MaxScanTokenSize`. -/
def FitsScanner (l : Bytes) : Prop :=
  10 ∉ l ∧ l.length < MaxScanTokenSize

instance (l : Bytes) : Decidable (FitsScanner l) := by
  unfold FitsScanner
  infer_instance

/-- A line of `MaxScanTokenSize` bytes, each the letter `x`. -/
def longLine : Bytes := List.replicate MaxScanTokenSize 120

/-- The single page of the snapshot that holds record A alone. -/
def pageA : NodeDataPage :=
  { Data := [recordA], PageNumber := 0, TotalPages := 1, TotalRecords := 1 }

/-- A page codec that writes `pageA` as the long line: the marshalling side. -/
def longMarshal : NodeDataPage → Option Bytes := fun p =>
  if p = pageA then some longLine else none

/-- A page codec that writes `pageA` as the long line: the unmarshalling side. -/
def longUnmarshal : Bytes → Option NodeDataPage := fun j =>
  if j = longLine then some pageA else none

end Masa

namespace Masa

/-! ### Pagination arithmetic -/

theorem lt_totalPagesOf_iff {K : Nat} (hK : 1 ≤ K) (N i : Nat) :
    i < totalPagesOf K N ↔ i * K < N := by
  unfold totalPagesOf
  rw [Nat.lt_iff_add_one_le, Nat.le_div_iff_mul_le (by omega), Nat.add_mul]
  omega

theorem le_totalPagesOf_mul {K : Nat} (hK : 1 ≤ K) (N : Nat) :
    N ≤ totalPagesOf K N * K := by
  by_contra h
  have h1 : totalPagesOf K N * K < N := by omega
  have h2 := (lt_totalPagesOf_iff hK N (totalPagesOf K N)).mpr h1
  omega

theorem totalPagesOf_zero (K : Nat) (hK : 1 ≤ K) : totalPagesOf K 0 = 0 := by
  unfold totalPagesOf
  apply Nat.div_eq_of_lt
  omega

/-- The integer formula agrees with the ceiling of the exact quotient. -/
theorem totalPagesOf_eq_ceil {K : Nat} (hK : 1 ≤ K) (N : Nat) :
    totalPagesOf K N = ⌈(N : ℚ) / (K : ℚ)⌉₊ := by
  have hKq : (0 : ℚ) < (K : ℚ) := by exact_mod_cast hK
  apply le_antisymm
  · by_contra h
    push_neg at h
    have h1 : ⌈(N : ℚ) / (K : ℚ)⌉₊ * K < N :=
      (lt_totalPagesOf_iff hK N _).mp h
    have h2 : (N : ℚ) / (K : ℚ) ≤ (⌈(N : ℚ) / (K : ℚ)⌉₊ : ℚ) := Nat.le_ceil _
    rw [div_le_iff₀ hKq] at h2
    have h3 : (N : ℚ) ≤ ((⌈(N : ℚ) / (K : ℚ)⌉₊ * K : ℕ) : ℚ) := by
      push_cast
      exact h2
    have h4 : N ≤ ⌈(N : ℚ) / (K : ℚ)⌉₊ * K := by exact_mod_cast h3
    omega
  · apply Nat.ceil_le.mpr
    rw [div_le_iff₀ hKq]
    have := le_totalPagesOf_mul hK N
    exact_mod_cast this

/-! ### One page -/

theorem recordsBetween_eq (R : List NodeData) (K i : Nat) :
    recordsBetween R (i * K) (min R.length ((i + 1) * K)) =
      (R.take (i * K + K)).drop (i * K) := by
  unfold recordsBetween
  rw [List.drop_take, List.take_eq_take, List.length_drop, Nat.add_mul, Nat.one_mul]
  omega

theorem buildPage_eq {K : Nat} (R : List NodeData) (i : Nat) (h : i * K ≤ R.length) :
    buildPage K R i = some (pageAt K R i) := by
  unfold buildPage goSlice endIndex startIndex pageAt
  rw [recordsBetween_eq]
  by_cases hc : i * K + K > R.length
  · simp only [hc, if_true, h]
    rw [List.take_of_length_le (le_refl _), List.take_of_length_le (by omega)]
  · simp only [hc, if_false]
    rw [if_pos (by omega)]

theorem buildPage_none {K : Nat} (R : List NodeData) (i : Nat) (h : R.length < i * K) :
    buildPage K R i = none := by
  unfold buildPage goSlice endIndex startIndex
  have hc : i * K + K > R.length := by omega
  simp only [hc, if_true]
  rw [if_neg (by omega)]

theorem SendNodeDataPage_eq {K : Nat} (marshal : NodeDataPage → Option Bytes)
    (R : List NodeData) (i : Nat) (h : i * K ≤ R.length) :
    SendNodeDataPage K marshal R i = some (eventOf marshal (pageAt K R i)) := by
  unfold SendNodeDataPage eventOf
  rw [buildPage_eq R i h]
  cases hm : marshal (pageAt K R i) <;> simp [hm]

/-! ### The send loop -/

theorem sendLoop_eq {K : Nat} (marshal : NodeDataPage → Option Bytes)
    (reg : Nat → List NodeData) :
    ∀ (rem i : Nat) (log : List SendEvent),
      (∀ j, i ≤ j → j < i + rem → j * K ≤ (reg (j + 1)).length) →
      sendLoop K marshal reg rem i log =
        SendOutcome.done
          (log ++ (List.range' i rem).map (fun j => eventOf marshal (pageAt K (reg (j + 1)) j)))
  | 0, i, log, _ => by simp [sendLoop]
  | rem + 1, i, log, h => by
    rw [sendLoop, SendNodeDataPage_eq marshal _ i (h i (le_refl _) (by omega))]
    simp only
    rw [sendLoop_eq marshal reg rem (i + 1) _ (fun j h1 h2 => h j (by omega) (by omega))]
    simp [List.range'_succ]


theorem pagesWritten_append (l₁ l₂ : List SendEvent) :
    pagesWritten (l₁ ++ l₂) = pagesWritten l₁ ++ pagesWritten l₂ := by
  induction l₁ with
  | nil => rfl
  | cons ev l₁ ih => cases ev <;> simp [pagesWritten, ih]

theorem bytesWritten_append (l₁ l₂ : List SendEvent) :
    bytesWritten (l₁ ++ l₂) = bytesWritten l₁ ++ bytesWritten l₂ := by
  induction l₁ with
  | nil => rfl
  | cons ev l₁ ih => cases ev <;> simp [bytesWritten, ih]

theorem pagesWritten_map_eventOf (marshal : NodeDataPage → Option Bytes)
    (f : Nat → NodeDataPage) :
    ∀ (is : List Nat), (∀ i ∈ is, marshal (f i) ≠ none) →
      pagesWritten (is.map (fun i => eventOf marshal (f i))) = is.map f
  | [], _ => rfl
  | i :: is, h => by
    have hi : marshal (f i) ≠ none := h i (List.mem_cons_self _ _)
    obtain ⟨j, hj⟩ := Option.ne_none_iff_exists'.mp hi
    have ih := pagesWritten_map_eventOf marshal f is
      (fun k hk => h k (List.mem_cons_of_mem _ hk))
    have he : eventOf marshal (f i) = SendEvent.write (f i) (j ++ [10]) := by
      simp [eventOf, hj]
    rw [List.map_cons, he, pagesWritten, ih, List.map_cons]

/-- With an unchanging registry and an open stream, the send runs to its end and its
log holds one event per page of the snapshot. -/
theorem SendNodeData_stable {K : Nat} (hK : 1 ≤ K) (marshal : NodeDataPage → Option Bytes)
    (NewStream : String → Bool) (peerID : String) (R : List NodeData)
    (hopen : NewStream peerID = true) :
    SendNodeData K marshal NewStream (fun _ => R) peerID =
      SendOutcome.done
        ((List.range (totalPagesOf K R.length)).map
          (fun i => eventOf marshal (pageAt K R i))) := by
  unfold SendNodeData
  simp only [hopen, if_true]
  rw [sendLoop_eq marshal (fun _ => R) _ 0 []]
  · simp [List.range_eq_range']
  · intro j _ hj
    have := (lt_totalPagesOf_iff hK R.length j).mp (by omega)
    omega

theorem recordsOf_pageAt_range (K : Nat) (R : List NodeData) :
    ∀ n : Nat, recordsOf ((List.range n).map (pageAt K R)) = R.take (n * K)
  | 0 => by simp [recordsOf]
  | n + 1 => by
    have ih := recordsOf_pageAt_range K R n
    unfold recordsOf at ih ⊢
    rw [List.range_succ, List.map_append, List.map_append, List.flatten_append, ih]
    simp only [List.map_cons, List.map_nil, List.flatten_cons, List.flatten_nil,
      List.append_nil, pageAt]
    rw [recordsBetween_eq, List.drop_take, Nat.add_sub_cancel_left, Nat.add_mul, Nat.one_mul,
      List.take_add]


theorem pageAt_data_length (K : Nat) (R : List NodeData) (i : Nat) :
    (pageAt K R i).Data.length = min R.length ((i + 1) * K) - i * K := by
  simp only [pageAt, recordsBetween, List.length_take, List.length_drop, Nat.add_mul,
    Nat.one_mul]
  omega

theorem pagesWritten_stable {K : Nat} (marshal : NodeDataPage → Option Bytes)
    (R : List NodeData)
    (hmarshal : ∀ i p, i < totalPagesOf K R.length → buildPage K R i = some p →
      marshal p ≠ none) (hK : 1 ≤ K) :
    pagesWritten ((List.range (totalPagesOf K R.length)).map
        (fun i => eventOf marshal (pageAt K R i))) =
      (List.range (totalPagesOf K R.length)).map (pageAt K R) := by
  apply pagesWritten_map_eventOf
  intro i hi
  have hlt := List.mem_range.mp hi
  have := (lt_totalPagesOf_iff hK R.length i).mp hlt
  exact hmarshal i _ hlt (buildPage_eq R i (by omega))

/-! ### Claims -/

/-- C1. Pagination round trip: for a snapshot `R` that every registry read of the send
returns, a page size `K ≥ 1`, an open stream and pages that marshal, `SendNodeData`
runs to its end, writes the pages numbered `0 .. totalPages - 1` in order, and the
record lists of the pages it writes, concatenated in order, are exactly `R`. -/
theorem pagination_round_trip (K : Nat) (hK : 1 ≤ K)
    (marshal : NodeDataPage → Option Bytes) (NewStream : String → Bool)
    (peerID : String) (R : List NodeData) (hopen : NewStream peerID = true)
    (hmarshal : ∀ i p, i < totalPagesOf K R.length → buildPage K R i = some p →
      marshal p ≠ none) :
    ∃ log, SendNodeData K marshal NewStream (fun _ => R) peerID = SendOutcome.done log ∧
      (pagesWritten log).map NodeDataPage.PageNumber = List.range (totalPagesOf K R.length) ∧
      recordsOf (pagesWritten log) = R := by
  refine ⟨_, SendNodeData_stable hK marshal NewStream peerID R hopen, ?_, ?_⟩
  · rw [pagesWritten_stable marshal R hmarshal hK, List.map_map]
    conv_rhs => rw [← List.map_id (List.range (totalPagesOf K R.length))]
    rfl
  · rw [pagesWritten_stable marshal R hmarshal hK, recordsOf_pageAt_range]
    exact List.take_of_length_le (le_totalPagesOf_mul hK R.length)

/-- Witness for C1: three records in pages of two. -/
theorem pagination_round_trip_witness :
    ∃ log, SendNodeData 2 blankMarshal openTransport
        (fun _ => [recordA, recordB, recordC]) "peerB" = SendOutcome.done log ∧
      (pagesWritten log).map NodeDataPage.PageNumber = List.range (totalPagesOf 2 3) ∧
      recordsOf (pagesWritten log) = [recordA, recordB, recordC] :=
  pagination_round_trip 2 (by decide) blankMarshal openTransport "peerB"
    [recordA, recordB, recordC] rfl (fun _ _ _ _ => by simp [blankMarshal])


/-- C3. Shape of the page sequence: for a snapshot `R` of `N` records that the registry
reads of the send return, a page size `K ≥ 1`, an open stream and pages that marshal,
`SendNodeData` writes exactly `ceil(N/K)` pages; page `i` is the page of the snapshot
with the records at positions `i*K .. min(N, (i+1)*K) - 1`; every page but the last
holds `K` records and the last holds `N - (ceil(N/K) - 1) * K`; for `N = 0` nothing is
written and the stream is closed; `N = 250`, `K = 100` gives sizes `[100, 100, 50]`
and three pages. -/
theorem page_sequence_shape (K : Nat) (hK : 1 ≤ K)
    (marshal : NodeDataPage → Option Bytes) (NewStream : String → Bool)
    (peerID : String) (R : List NodeData) (hopen : NewStream peerID = true)
    (hmarshal : ∀ i p, i < totalPagesOf K R.length → buildPage K R i = some p →
      marshal p ≠ none) :
    ∃ log, SendNodeData K marshal NewStream (fun _ => R) peerID = SendOutcome.done log ∧
      totalPagesOf K R.length = ⌈(R.length : ℚ) / (K : ℚ)⌉₊ ∧
      (pagesWritten log).length = totalPagesOf K R.length ∧
      pagesWritten log = (List.range (totalPagesOf K R.length)).map (pageAt K R) ∧
      (∀ i, i + 1 < totalPagesOf K R.length → (pageAt K R i).Data.length = K) ∧
      (0 < totalPagesOf K R.length →
        (pageAt K R (totalPagesOf K R.length - 1)).Data.length =
          R.length - (totalPagesOf K R.length - 1) * K) ∧
      (R.length = 0 → log = []) ∧
      (K = 100 → R.length = 250 →
        (pagesWritten log).map (fun p => p.Data.length) = [100, 100, 50] ∧
        (pagesWritten log).map NodeDataPage.TotalPages = [3, 3, 3]) := by
  have hpw := pagesWritten_stable marshal R hmarshal hK
  refine ⟨_, SendNodeData_stable hK marshal NewStream peerID R hopen,
    totalPagesOf_eq_ceil hK R.length, ?_, hpw, ?_, ?_, ?_, ?_⟩
  · rw [hpw]
    simp
  · intro i hi
    have h1 := (lt_totalPagesOf_iff hK R.length (i + 1)).mp hi
    rw [pageAt_data_length]
    rw [Nat.add_mul, Nat.one_mul] at h1 ⊢
    omega
  · intro hpos
    have h1 := (lt_totalPagesOf_iff hK R.length (totalPagesOf K R.length - 1)).mp (by omega)
    have h2 := le_totalPagesOf_mul hK R.length
    have h3 : totalPagesOf K R.length - 1 + 1 = totalPagesOf K R.length := by omega
    rw [pageAt_data_length, h3]
    omega
  · intro h0
    rw [h0, totalPagesOf_zero K hK]
    rfl
  · intro hK100 h250
    rw [hpw]
    subst hK100
    have htp : totalPagesOf 100 R.length = 3 := by rw [h250]; rfl
    rw [htp]
    constructor
    · simp [List.range_succ, pageAt_data_length, h250]
    · simp [List.range_succ, pageAt, htp]

/-- Witness for C3: 250 records in pages of 100. -/
theorem page_sequence_shape_witness :
    ∃ log, SendNodeData 100 blankMarshal openTransport
        (fun _ => List.replicate 250 recordA) "peerB" = SendOutcome.done log ∧
      (pagesWritten log).map (fun p => p.Data.length) = [100, 100, 50] ∧
      (pagesWritten log).map NodeDataPage.TotalPages = [3, 3, 3] :=
  match page_sequence_shape 100 (by decide) blankMarshal openTransport "peerB"
    (List.replicate 250 recordA) rfl (fun _ _ _ _ => by simp [blankMarshal]) with
  | ⟨log, hdone, _, _, _, _, _, _, hsizes⟩ =>
    ⟨log, hdone, hsizes rfl (List.length_replicate 250 recordA)⟩

/-- C4, counterexample. With pages of one record and a registry that gains a third record
after the first page, the two pages of one send disagree on `totalPages` and
`totalRecords` (2 and 2, then 3 and 3), and differ from the pages sent when the
registry does not change. -/
theorem single_snapshot_counterexample :
    (SendNodeData 1 blankMarshal openTransport growingRegistry "peerB").log.length = 2 ∧
    pagesWritten (SendNodeData 1 blankMarshal openTransport growingRegistry "peerB").log =
      [{ Data := [recordA], PageNumber := 0, TotalPages := 2, TotalRecords := 2 },
       { Data := [recordB], PageNumber := 1, TotalPages := 3, TotalRecords := 3 }] ∧
    pagesWritten (SendNodeData 1 blankMarshal openTransport
        (fun _ => growingRegistry 0) "peerB").log =
      [{ Data := [recordA], PageNumber := 0, TotalPages := 2, TotalRecords := 2 },
       { Data := [recordB], PageNumber := 1, TotalPages := 2, TotalRecords := 2 }] ∧
    SendNodeData 1 blankMarshal openTransport growingRegistry "peerB" ≠
      SendNodeData 1 blankMarshal openTransport (fun _ => growingRegistry 0) "peerB" := by
  decide

/-- C4, amended. One `SendNodeData` call reads the registry once itself, which fixes the
number of pages, and once more in every `SendNodeDataPage` call: as long as the
snapshot read for page `i` still reaches the start index `i * K`, the send completes
and page `i`, with its `totalPages` and `totalRecords`, is the page `i` of the
snapshot read for that page. When every read of the call returns the same snapshot,
the send is the one of that single snapshot. -/
theorem pages_follow_own_read (K : Nat) (marshal : NodeDataPage → Option Bytes)
    (NewStream : String → Bool) (peerID : String) (reg : Nat → List NodeData)
    (hopen : NewStream peerID = true)
    (hreach : ∀ i, i < totalPagesOf K (reg 0).length → i * K ≤ (reg (i + 1)).length) :
    SendNodeData K marshal NewStream reg peerID =
        SendOutcome.done ((List.range (totalPagesOf K (reg 0).length)).map
          (fun i => eventOf marshal (pageAt K (reg (i + 1)) i))) ∧
      ((∀ k, reg k = reg 0) →
        SendNodeData K marshal NewStream reg peerID =
          SendNodeData K marshal NewStream (fun _ => reg 0) peerID) := by
  constructor
  · unfold SendNodeData
    simp only [hopen, if_true]
    rw [sendLoop_eq marshal reg _ 0 [] (fun j _ hj => hreach j (by omega))]
    simp [List.range_eq_range']
  · intro hsame
    have : reg = fun _ => reg 0 := funext hsame
    rw [← this]

/-- Witness for the amended C4: the growing registry with pages of one record. -/
theorem pages_follow_own_read_witness :
    SendNodeData 1 blankMarshal openTransport growingRegistry "peerB" =
      SendOutcome.done ((List.range (totalPagesOf 1 (growingRegistry 0).length)).map
        (fun i => eventOf blankMarshal (pageAt 1 (growingRegistry (i + 1)) i))) :=
  (pages_follow_own_read 1 blankMarshal openTransport "peerB" growingRegistry rfl
    (by decide)).1

/-! ### The receive side -/

theorem foldl_HandleNodeData (records calls : List NodeData) :
    records.foldl HandleNodeData calls = calls ++ records := by
  induction records generalizing calls with
  | nil => simp
  | cons r records ih => simp [List.foldl_cons, HandleNodeData, ih]

theorem receiveLoop_eq (unmarshal : Bytes → Option NodeDataPage) :
    ∀ (tokens : List Bytes) (calls : List NodeData),
      receiveLoop unmarshal tokens calls = calls ++ recordsOf (tokens.filterMap unmarshal)
  | [], calls => by simp [receiveLoop, recordsOf]
  | data :: tokens, calls => by
    cases h : unmarshal data with
    | none =>
      rw [receiveLoop, h]
      simp only
      rw [receiveLoop_eq unmarshal tokens calls, List.filterMap_cons_none h]
    | some page =>
      rw [receiveLoop, h]
      simp only
      rw [receiveLoop_eq unmarshal tokens _, foldl_HandleNodeData,
        List.filterMap_cons_some h]
      simp [recordsOf]

theorem dropCR_eq_self {j : Bytes} (h : j.getLast? ≠ some 13) : dropCR j = j := by
  unfold dropCR
  rw [if_neg h]

theorem scanLines_newline :
    ∀ (j cur stream : Bytes), 10 ∉ j → (cur ++ j).length < MaxScanTokenSize →
      scanLines cur (j ++ 10 :: stream) = dropCR (cur ++ j) :: scanLines [] stream
  | [], cur, stream, _, _ => by simp [scanLines]
  | b :: j, cur, stream, h10, hlen => by
    have hb : b ≠ 10 := fun hb => h10 (by simp [hb])
    have hj : 10 ∉ j := fun hj => h10 (List.mem_cons_of_mem _ hj)
    have hlen2 : ¬ MaxScanTokenSize ≤ cur.length + 1 := by
      simp only [List.length_append, List.length_cons] at hlen
      omega
    rw [List.cons_append, scanLines, if_neg hb, if_neg hlen2,
      scanLines_newline j (cur ++ [b]) stream hj (by simpa using hlen)]
    simp

theorem scanLines_line {j : Bytes} (hj : IsLine j) (stream : Bytes) :
    scanLines [] (j ++ 10 :: stream) = j :: scanLines [] stream := by
  rw [scanLines_newline j [] stream hj.1 (by simpa using hj.2.2)]
  simp [dropCR_eq_self hj.2.1]

theorem receive_sent (marshal : NodeDataPage → Option Bytes)
    (unmarshal : Bytes → Option NodeDataPage) (f : Nat → NodeDataPage) :
    ∀ (is : List Nat) (calls : List NodeData),
      (∀ i ∈ is, TravelsAsLine marshal unmarshal (f i)) →
      ReceiveNodeData unmarshal
          (bytesWritten (is.map (fun i => eventOf marshal (f i)))) calls =
        calls ++ recordsOf (is.map f)
  | [], calls, _ => by
    simp [ReceiveNodeData, bytesWritten, scanLines, receiveLoop, recordsOf]
  | i :: is, calls, h => by
    obtain ⟨j, hm, hu, hline⟩ := h i (List.mem_cons_self _ _)
    have he : eventOf marshal (f i) = SendEvent.write (f i) (j ++ [10]) := by
      simp [eventOf, hm]
    have ih := receive_sent marshal unmarshal f is (calls ++ (f i).Data)
      (fun k hk => h k (List.mem_cons_of_mem _ hk))
    unfold ReceiveNodeData at ih ⊢
    rw [List.map_cons, he, bytesWritten, List.append_assoc, List.singleton_append,
      scanLines_line hline, receiveLoop, hu]
    simp only
    rw [foldl_HandleNodeData, ih]
    simp [recordsOf]


theorem scanLines_overlong :
    ∀ (j cur rest : Bytes), 10 ∉ j → cur.length < MaxScanTokenSize →
      MaxScanTokenSize ≤ cur.length + j.length → scanLines cur (j ++ rest) = []
  | [], cur, rest, _, hcur, hlong => by
    simp only [List.length_nil, Nat.add_zero] at hlong
    omega
  | b :: j, cur, rest, h10, hcur, hlong => by
    have hb : b ≠ 10 := fun hb => h10 (by simp [hb])
    have hj : 10 ∉ j := fun hj => h10 (List.mem_cons_of_mem _ hj)
    rw [List.cons_append, scanLines, if_neg hb]
    by_cases hfull : MaxScanTokenSize ≤ cur.length + 1
    · rw [if_pos hfull]
    · rw [if_neg hfull]
      apply scanLines_overlong j (cur ++ [b]) rest hj
      · simp only [List.length_append, List.length_cons, List.length_nil]
        omega
      · simp only [List.length_append, List.length_cons, List.length_nil] at hlong ⊢
        omega

theorem longLine_length : longLine.length = MaxScanTokenSize := by
  unfold longLine
  exact List.length_replicate _ _

theorem not_mem_longLine : 10 ∉ longLine := by
  unfold longLine
  intro h
  have := List.eq_of_mem_replicate h
  omega

theorem scanLines_longLine (rest : Bytes) : scanLines [] (longLine ++ rest) = [] :=
  scanLines_overlong longLine [] rest not_mem_longLine (by decide)
    (by rw [longLine_length]; simp)

/-- C2, counterexample. The snapshot holds record A alone and its single page marshals
to a line of 65536 bytes that unmarshals back to the page: `SendNodeData` writes the
page and ends normally, but `ReceiveNodeData`, fed those bytes, forwards no record,
because the scanner gives up on a line that fills its buffer. -/
theorem full_sync_long_line_counterexample :
    longLine.length = 65536 ∧
      longMarshal pageA = some longLine ∧
      longUnmarshal longLine = some pageA ∧
      SendNodeData 1 longMarshal openTransport (fun _ => [recordA]) "peerB" =
        SendOutcome.done [SendEvent.write pageA (longLine ++ [10])] ∧
      ReceiveNodeData longUnmarshal
        (bytesWritten [SendEvent.write pageA (longLine ++ [10])]) [] = [] ∧
      ReceiveNodeData longUnmarshal
        (bytesWritten [SendEvent.write pageA (longLine ++ [10])]) [] ≠ [recordA] := by
  have hrecv : ReceiveNodeData longUnmarshal
      (bytesWritten [SendEvent.write pageA (longLine ++ [10])]) [] = [] := by
    unfold ReceiveNodeData
    rw [bytesWritten, bytesWritten, List.append_nil, scanLines_longLine]
    rfl
  have hmarshal : longMarshal pageA = some longLine := by
    unfold longMarshal
    rw [if_pos rfl]
  refine ⟨longLine_length, hmarshal, ?_, ?_, hrecv, ?_⟩
  · unfold longUnmarshal
    rw [if_pos rfl]
  · rw [SendNodeData_stable (by decide) longMarshal openTransport "peerB" [recordA] rfl]
    have htp : totalPagesOf 1 [recordA].length = 1 := by decide
    have hpage : pageAt 1 [recordA] 0 = pageA := by decide
    rw [htp]
    have hrange : List.range 1 = [0] := rfl
    rw [hrange, List.map_cons, List.map_nil, hpage]
    unfold eventOf
    rw [hmarshal]
  · rw [hrecv]
    exact fun h => List.noConfusion h

/-- C2, amended. Full-sync end to end: for a snapshot `R` held by the sender during the
send, a stream that opens, and a codec through which every page of the send travels as
one line (it marshals to bytes without newline or trailing carriage return, shorter
than the scanner buffer of 64 KiB, that unmarshal back to the page), the bytes
`SendNodeData` writes, fed to `ReceiveNodeData` on a peer whose merge entrypoint has
not been called yet, make it forward exactly the records of `R`, in order. -/
theorem full_sync_end_to_end (K : Nat) (hK : 1 ≤ K)
    (marshal : NodeDataPage → Option Bytes) (unmarshal : Bytes → Option NodeDataPage)
    (NewStream : String → Bool) (peerID : String) (R : List NodeData)
    (hopen : NewStream peerID = true)
    (hcodec : ∀ i p, i < totalPagesOf K R.length → buildPage K R i = some p →
      TravelsAsLine marshal unmarshal p) :
    ∃ log, SendNodeData K marshal NewStream (fun _ => R) peerID = SendOutcome.done log ∧
      ReceiveNodeData unmarshal (bytesWritten log) [] = R := by
  refine ⟨_, SendNodeData_stable hK marshal NewStream peerID R hopen, ?_⟩
  rw [receive_sent marshal unmarshal (pageAt K R) _ []]
  · rw [recordsOf_pageAt_range, List.nil_append]
    exact List.take_of_length_le (le_totalPagesOf_mul hK R.length)
  · intro i hi
    have hlt := List.mem_range.mp hi
    have := (lt_totalPagesOf_iff hK R.length i).mp hlt
    exact hcodec i _ hlt (buildPage_eq R i (by omega))

/-- Witness for C2: three records in pages of two through the table codec. -/
theorem full_sync_end_to_end_witness :
    ∃ log, SendNodeData 2 tableMarshal openTransport
        (fun _ => [recordA, recordB, recordC]) "peerB" = SendOutcome.done log ∧
      ReceiveNodeData tableUnmarshal (bytesWritten log) [] = [recordA, recordB, recordC] :=
  full_sync_end_to_end 2 (by decide) tableMarshal tableUnmarshal openTransport "peerB"
    [recordA, recordB, recordC] rfl (by
      intro i p hi hp
      have hi2 : i < 2 := hi
      interval_cases i
      · have h0 : buildPage 2 [recordA, recordB, recordC] 0 = some pageAB := by decide
        rw [h0] at hp
        cases hp
        exact ⟨[123, 48, 125], by decide, by decide, by decide, by decide, by decide⟩
      · have h1 : buildPage 2 [recordA, recordB, recordC] 1 = some pageC := by decide
        rw [h1] at hp
        cases hp
        exact ⟨[123, 49, 125], by decide, by decide, by decide, by decide, by decide⟩)

theorem wireOf_cons (l : Bytes) (lines : List Bytes) (tail : Bytes) :
    wireOf (l :: lines) tail = l ++ 10 :: wireOf lines tail := by
  simp [wireOf]

theorem scanLines_fragment :
    ∀ (t cur : Bytes), 10 ∉ t → (cur ++ t).length < MaxScanTokenSize →
      scanLines cur t = if cur ++ t = [] then [] else [dropCR (cur ++ t)]
  | [], cur, _, _ => by simp [scanLines]
  | b :: t, cur, h10, hlen => by
    have hb : b ≠ 10 := fun hb => h10 (by simp [hb])
    have ht : 10 ∉ t := fun ht => h10 (List.mem_cons_of_mem _ ht)
    have hfull : ¬ MaxScanTokenSize ≤ cur.length + 1 := by
      simp only [List.length_append, List.length_cons] at hlen
      omega
    rw [scanLines, if_neg hb, if_neg hfull,
      scanLines_fragment t (cur ++ [b]) ht (by simpa using hlen)]
    simp

theorem scanLines_wire (more : Bytes) :
    ∀ lines : List Bytes, (∀ l ∈ lines, FitsScanner l) →
      scanLines [] (wireOf lines more) = lines.map dropCR ++ scanLines [] more
  | [], _ => by simp [wireOf]
  | l :: lines, h => by
    have hl := h l (List.mem_cons_self _ _)
    rw [wireOf_cons, scanLines_newline l [] _ hl.1 (by simpa using hl.2),
      scanLines_wire more lines (fun k hk => h k (List.mem_cons_of_mem _ hk))]
    simp

/-- C5, counterexample. A valid line, then a corrupted line of 65536 bytes, then a
second valid line: `ReceiveNodeData` forwards the records of the first page only,
because the scan ends at the line that fills the scanner buffer. -/
theorem receive_long_line_counterexample :
    tableUnmarshal [123, 48, 125] = some pageAB ∧
      tableUnmarshal [123, 49, 125] = some pageC ∧
      tableUnmarshal longLine = none ∧
      10 ∉ longLine ∧
      longLine.length = 65536 ∧
      ReceiveNodeData tableUnmarshal (wireOf [[123, 48, 125], longLine, [123, 49, 125]] []) [] =
        pageAB.Data ∧
      ReceiveNodeData tableUnmarshal (wireOf [[123, 48, 125], longLine, [123, 49, 125]] []) [] ≠
        pageAB.Data ++ pageC.Data := by
  have hne : ∀ j : Bytes, j.length = 3 → longLine ≠ j := by
    intro j hj h
    have := congrArg List.length h
    rw [longLine_length, hj] at this
    exact absurd this (by decide)
  have hrecv : ReceiveNodeData tableUnmarshal
      (wireOf [[123, 48, 125], longLine, [123, 49, 125]] []) [] = pageAB.Data := by
    unfold ReceiveNodeData
    rw [wireOf_cons, scanLines_line (by decide), wireOf_cons, scanLines_longLine]
    decide
  refine ⟨by decide, by decide, ?_, not_mem_longLine, longLine_length, hrecv, ?_⟩
  · unfold tableUnmarshal
    rw [if_neg (hne [123, 48, 125] rfl), if_neg (hne [123, 49, 125] rfl)]
  · rw [hrecv]
    decide

/-- C5, amended. Receive resilience: for every sequence of lines arriving on the sync
stream, each shorter than the scanner buffer of 64 KiB, and any unfinished last line
that is shorter too, `ReceiveNodeData` makes exactly the merge calls for the records
of those lines that unmarshal as a page once the scanner has dropped a trailing
carriage return, in stream order, going on after every line that does not; for lines
`a`, `x`, `b` of that kind with `a`, `b` valid pages and `x` corrupted it forwards all
records of `a` followed by all records of `b`; a line that fills the scanner buffer
ends the scan, and only the lines before it are forwarded. -/
theorem receive_resilience (unmarshal : Bytes → Option NodeDataPage)
    (calls : List NodeData) :
    (∀ (lines : List Bytes) (tail : Bytes), (∀ l ∈ lines, FitsScanner l) →
        FitsScanner tail →
        ReceiveNodeData unmarshal (wireOf lines tail) calls =
          calls ++ recordsOf (((lines ++ if tail = [] then [] else [tail]).map dropCR).filterMap
            unmarshal)) ∧
      (∀ (a x b : Bytes) (pa pb : NodeDataPage),
        FitsScanner a → FitsScanner x → FitsScanner b →
        unmarshal (dropCR a) = some pa → unmarshal (dropCR x) = none →
        unmarshal (dropCR b) = some pb →
        ReceiveNodeData unmarshal (wireOf [a, x, b] []) calls = calls ++ pa.Data ++ pb.Data) ∧
      (∀ (before : List Bytes) (x rest : Bytes), (∀ l ∈ before, FitsScanner l) →
        10 ∉ x → MaxScanTokenSize ≤ x.length →
        ReceiveNodeData unmarshal (wireOf before (x ++ rest)) calls =
          calls ++ recordsOf ((before.map dropCR).filterMap unmarshal)) := by
  have hgeneral : ∀ (lines : List Bytes) (tail : Bytes), (∀ l ∈ lines, FitsScanner l) →
      FitsScanner tail →
      ReceiveNodeData unmarshal (wireOf lines tail) calls =
        calls ++ recordsOf (((lines ++ if tail = [] then [] else [tail]).map dropCR).filterMap
          unmarshal) := by
    intro lines tail hlines htail
    unfold ReceiveNodeData
    rw [scanLines_wire tail lines hlines,
      scanLines_fragment tail [] htail.1 (by simpa using htail.2), receiveLoop_eq]
    by_cases ht : tail = []
    · simp [ht]
    · simp [ht]
  refine ⟨hgeneral, ?_, ?_⟩
  · intro a x b pa pb ha hx hb hua hux hub
    have hall : ∀ l ∈ [a, x, b], FitsScanner l := by
      intro l hl
      simp only [List.mem_cons, List.mem_singleton, List.not_mem_nil, or_false] at hl
      rcases hl with h | h | h <;> rw [h] <;> assumption
    rw [hgeneral [a, x, b] [] hall (by decide)]
    simp [hua, hux, hub, recordsOf]
  · intro before x rest hbefore hx hlong
    unfold ReceiveNodeData
    rw [scanLines_wire (x ++ rest) before hbefore,
      scanLines_overlong x [] rest hx (by decide) (by simpa using hlong), receiveLoop_eq,
      List.append_nil]

/-- Witness for the amended C5: a corrupted line between the two pages of the table
codec. -/
theorem receive_resilience_witness :
    ReceiveNodeData tableUnmarshal (wireOf [[123, 48, 125], [123, 63], [123, 49, 125]] []) [] =
      [] ++ pageAB.Data ++ pageC.Data :=
  (receive_resilience tableUnmarshal []).2.1 [123, 48, 125] [123, 63] [123, 49, 125]
    pageAB pageC (by decide) (by decide) (by decide) (by decide) (by decide) (by decide)


/-! ### The dispatch loop -/

theorem sendsStarted_append (l₁ l₂ : List ListenerEvent) :
    sendsStarted (l₁ ++ l₂) = sendsStarted l₁ ++ sendsStarted l₂ := by
  induction l₁ with
  | nil => rfl
  | cons ev l₁ ih => cases ev <;> simp [sendsStarted, ih]

theorem handleNotification_serialized (ActivityJoined : Int) (K : Nat)
    (marshalNode : NodeData → Option Bytes) (marshalPage : NodeDataPage → Option Bytes)
    (NewStream : String → Bool) (n : Notification) (jsonData : Bytes)
    (hser : marshalNode n.nodeData = some jsonData) :
    handleNotification ActivityJoined K marshalNode marshalPage NewStream n =
      ListenerEvent.publish jsonData n.publishOk ::
        (if n.nodeData.Activity = ActivityJoined then
          [ListenerEvent.goSendNodeData n.nodeData.PeerId
            (SendNodeData K marshalPage NewStream n.GetAllNodeData n.nodeData.PeerId)]
        else []) := by
  unfold handleNotification
  rw [hser]

theorem sendsStarted_handleNotification (ActivityJoined : Int) (K : Nat)
    (marshalNode : NodeData → Option Bytes) (marshalPage : NodeDataPage → Option Bytes)
    (NewStream : String → Bool) (n : Notification) :
    sendsStarted (handleNotification ActivityJoined K marshalNode marshalPage NewStream n) =
      if (marshalNode n.nodeData).isSome ∧ n.nodeData.Activity = ActivityJoined then
        [n.nodeData.PeerId] else [] := by
  unfold handleNotification
  cases hser : marshalNode n.nodeData with
  | none => simp [sendsStarted]
  | some j =>
    by_cases hj : n.nodeData.Activity = ActivityJoined <;> simp [hj, sendsStarted]

/-- C6. Full-sync trigger: for a notification whose gossip serialization succeeds,
`ListenToNodeTracker` publishes and then, when the activity tag is `Joined`, starts
exactly one `SendNodeData` addressed to that notification's peer id, and when the tag
is anything else starts none; over the whole loop the sends started are, in order, the
peers of the notifications that serialize and are tagged `Joined`. -/
theorem full_sync_trigger (ActivityJoined : Int) (K : Nat)
    (marshalNode : NodeData → Option Bytes) (marshalPage : NodeDataPage → Option Bytes)
    (NewStream : String → Bool) (n : Notification) (jsonData : Bytes)
    (hser : marshalNode n.nodeData = some jsonData) :
    (n.nodeData.Activity = ActivityJoined →
      handleNotification ActivityJoined K marshalNode marshalPage NewStream n =
          [ListenerEvent.publish jsonData n.publishOk,
           ListenerEvent.goSendNodeData n.nodeData.PeerId
            (SendNodeData K marshalPage NewStream n.GetAllNodeData n.nodeData.PeerId)] ∧
        sendsStarted (handleNotification ActivityJoined K marshalNode marshalPage NewStream n) =
          [n.nodeData.PeerId]) ∧
    (n.nodeData.Activity ≠ ActivityJoined →
      handleNotification ActivityJoined K marshalNode marshalPage NewStream n =
          [ListenerEvent.publish jsonData n.publishOk] ∧
        sendsStarted (handleNotification ActivityJoined K marshalNode marshalPage NewStream n) =
          []) ∧
    (∀ ns : List Notification, (∀ m ∈ ns, marshalNode m.nodeData ≠ none) →
      sendsStarted (ListenToNodeTracker ActivityJoined K marshalNode marshalPage NewStream ns) =
        (ns.filter (fun m => decide (m.nodeData.Activity = ActivityJoined))).map
          (fun m => m.nodeData.PeerId)) := by
  have hev := handleNotification_serialized ActivityJoined K marshalNode marshalPage
    NewStream n jsonData hser
  refine ⟨?_, ?_, ?_⟩
  · intro hj
    rw [hev, if_pos hj]
    exact ⟨rfl, rfl⟩
  · intro hj
    rw [hev, if_neg hj]
    exact ⟨rfl, rfl⟩
  · intro ns
    induction ns with
    | nil => intro _; rfl
    | cons m ns ih =>
      intro hall
      have hm : (marshalNode m.nodeData).isSome = true :=
        Option.isSome_iff_ne_none.mpr (hall m (List.mem_cons_self _ _))
      rw [ListenToNodeTracker, sendsStarted_append, sendsStarted_handleNotification,
        ih (fun k hk => hall k (List.mem_cons_of_mem _ hk))]
      by_cases hj : m.nodeData.Activity = ActivityJoined <;> simp [hj, hm]

/-- Witness for C6: record A is tagged with the `Joined` value `0`. -/
theorem full_sync_trigger_witness :
    handleNotification 0 2 plainMarshalNode blankMarshal openTransport noticeA =
        [ListenerEvent.publish [123, 125] noticeA.publishOk,
         ListenerEvent.goSendNodeData noticeA.nodeData.PeerId
          (SendNodeData 2 blankMarshal openTransport noticeA.GetAllNodeData
            noticeA.nodeData.PeerId)] ∧
      sendsStarted (handleNotification 0 2 plainMarshalNode blankMarshal openTransport noticeA) =
        [noticeA.nodeData.PeerId] :=
  (full_sync_trigger 0 2 plainMarshalNode blankMarshal openTransport noticeA [123, 125]
    rfl).1 rfl

/-- C7, counterexample. Record A is tagged `Joined` (tag value `0`) and cannot be
serialized: the notification is logged and dropped, no gossip publish is attempted and
no full sync is started, although the stream to the peer would open. -/
theorem independence_counterexample :
    noticeA.nodeData.Activity = 0 ∧
    handleNotification 0 2 failingMarshalNode blankMarshal openTransport noticeA =
      [ListenerEvent.marshalError recordA] ∧
    sendsStarted
      (handleNotification 0 2 failingMarshalNode blankMarshal openTransport noticeA) = [] ∧
    sendsStarted
      (ListenToNodeTracker 0 2 failingMarshalNode blankMarshal openTransport [noticeA]) = [] := by
  decide

/-- C7, amended. For a notification tagged `Joined` whose record serializes,
`ListenToNodeTracker` attempts exactly one gossip publish of that record and starts
exactly one full sync to that peer: the full sync is started whether `Publish` returns
nil or an error, and the publish is attempted whatever the stream open and the registry
reads of the full sync turn out to be. -/
theorem joined_publish_and_sync (ActivityJoined : Int) (K : Nat)
    (marshalNode : NodeData → Option Bytes) (marshalPage : NodeDataPage → Option Bytes)
    (nodeData : NodeData) (jsonData : Bytes)
    (hjoined : nodeData.Activity = ActivityJoined)
    (hser : marshalNode nodeData = some jsonData) :
    ∀ (publishOk : Bool) (NewStream : String → Bool) (reg : Nat → List NodeData),
      handleNotification ActivityJoined K marshalNode marshalPage NewStream
          { nodeData := nodeData, publishOk := publishOk, GetAllNodeData := reg } =
        [ListenerEvent.publish jsonData publishOk,
         ListenerEvent.goSendNodeData nodeData.PeerId
          (SendNodeData K marshalPage NewStream reg nodeData.PeerId)] ∧
      publishesAttempted (handleNotification ActivityJoined K marshalNode marshalPage NewStream
          { nodeData := nodeData, publishOk := publishOk, GetAllNodeData := reg }) =
        [jsonData] ∧
      sendsStarted (handleNotification ActivityJoined K marshalNode marshalPage NewStream
          { nodeData := nodeData, publishOk := publishOk, GetAllNodeData := reg }) =
        [nodeData.PeerId] := by
  intro publishOk NewStream reg
  have hev := handleNotification_serialized ActivityJoined K marshalNode marshalPage
    NewStream { nodeData := nodeData, publishOk := publishOk, GetAllNodeData := reg }
    jsonData hser
  simp only at hev
  rw [hev, if_pos hjoined]
  exact ⟨rfl, rfl, rfl⟩

/-- Witness for the amended C7: record A, tagged with the `Joined` value `0`, with a
failing publish and a stream that does not open. -/
theorem joined_publish_and_sync_witness :
    handleNotification 0 2 plainMarshalNode blankMarshal closedTransport
        { nodeData := recordA, publishOk := false, GetAllNodeData := fun _ => [recordA] } =
      [ListenerEvent.publish [123, 125] false,
       ListenerEvent.goSendNodeData recordA.PeerId
        (SendNodeData 2 blankMarshal closedTransport (fun _ => [recordA]) recordA.PeerId)] ∧
    publishesAttempted (handleNotification 0 2 plainMarshalNode blankMarshal closedTransport
        { nodeData := recordA, publishOk := false, GetAllNodeData := fun _ => [recordA] }) =
      [[123, 125]] ∧
    sendsStarted (handleNotification 0 2 plainMarshalNode blankMarshal closedTransport
        { nodeData := recordA, publishOk := false, GetAllNodeData := fun _ => [recordA] }) =
      [recordA.PeerId] :=
  joined_publish_and_sync 0 2 plainMarshalNode blankMarshal recordA [123, 125] rfl rfl
    false closedTransport (fun _ => [recordA])


/-! ### Stream framing and inbound gossip -/

theorem readLoop_clean (pre : List Bytes) (tail : List (Bytes × Option ReadError)) :
    ∀ buffer : Bytes,
      readLoop (pre.map (fun c => (c, none)) ++ tail) buffer =
        readLoop tail (buffer ++ pre.flatten) := by
  induction pre with
  | nil => intro buffer; simp
  | cons c pre ih =>
    intro buffer
    rw [List.map_cons, List.cons_append, readLoop, ih]
    by_cases hc : c.length > 0
    · simp [hc]
    · have : c = [] := List.length_eq_zero.mp (by omega)
      simp [this]

theorem readLoop_last (chunk buffer : Bytes) (err : ReadError)
    (rest : List (Bytes × Option ReadError)) :
    readLoop ((chunk, some err) :: rest) buffer =
      match err with
      | ReadError.EOF => some (some (buffer ++ chunk))
      | ReadError.other _ => some none := by
  cases err with
  | EOF =>
    rw [readLoop]
    by_cases hc : chunk.length > 0
    · simp [hc]
    · have : chunk = [] := List.length_eq_zero.mp (by omega)
      simp [this]
  | other msg => rw [readLoop]

theorem handleStreamData_readsEnding (pre : List Bytes) (chunk : Bytes) (err : ReadError)
    (rest : List (Bytes × Option ReadError)) :
    handleStreamData (readsEnding pre chunk err rest) =
      match err with
      | ReadError.EOF => some (some (pre.flatten ++ chunk))
      | ReadError.other _ => some none := by
  unfold handleStreamData readsEnding
  rw [readLoop_clean, readLoop_last, List.nil_append]

theorem HandleMessage_eq (unmarshal : Bytes → Option NodeData) (calls : List NodeData)
    (payload : Bytes) :
    HandleMessage unmarshal calls payload = calls ++ (unmarshal payload).toList := by
  unfold HandleMessage HandleNodeData
  cases unmarshal payload <;> simp

theorem dispatchMessages_eq (unmarshal : Bytes → Option NodeData) :
    ∀ (msgs : List Bytes) (calls : List NodeData),
      dispatchMessages unmarshal msgs calls = calls ++ msgs.filterMap unmarshal
  | [], calls => by simp [dispatchMessages]
  | m :: msgs, calls => by
    rw [dispatchMessages, dispatchMessages_eq unmarshal msgs, HandleMessage_eq]
    cases h : unmarshal m <;> simp [List.filterMap_cons, h]

theorem GossipNodeData_clean (unmarshal : Bytes → Option NodeData) (calls : List NodeData)
    (pre : List Bytes) (chunk : Bytes) (rest : List (Bytes × Option ReadError)) :
    GossipNodeData unmarshal calls (readsEnding pre chunk ReadError.EOF rest) =
      some (calls ++ (unmarshal (pre.flatten ++ chunk)).toList) := by
  unfold GossipNodeData
  rw [handleStreamData_readsEnding]
  simp [HandleMessage_eq]

theorem dispatchStreams_eq (unmarshal : Bytes → Option NodeData) :
    ∀ (payloads : List Bytes) (calls : List NodeData),
      dispatchStreams unmarshal
          (payloads.map (fun p => readsEnding [] p ReadError.EOF [])) calls =
        some (calls ++ payloads.filterMap unmarshal)
  | [], calls => by simp [dispatchStreams]
  | p :: payloads, calls => by
    rw [List.map_cons, dispatchStreams, GossipNodeData_clean]
    simp only
    rw [dispatchStreams_eq unmarshal payloads]
    cases h : unmarshal p <;> simp [List.filterMap_cons, h]

/-- C9. Stream framing helper: for reads that deliver the chunks `pre` without error and
then `chunk` together with the first error, `handleStreamData` returns the
concatenation of all the chunks, the last one included, when that error is `io.EOF`,
and returns nil when it is any other error, whatever had been accumulated. -/
theorem stream_framing (pre : List Bytes) (chunk : Bytes)
    (rest : List (Bytes × Option ReadError)) :
    handleStreamData (readsEnding pre chunk ReadError.EOF rest) =
        some (some (pre.flatten ++ chunk)) ∧
      (∀ msg : String,
        handleStreamData (readsEnding pre chunk (ReadError.other msg) rest) = some none) :=
  ⟨handleStreamData_readsEnding pre chunk ReadError.EOF rest,
   fun msg => handleStreamData_readsEnding pre chunk (ReadError.other msg) rest⟩

/-- C8. Inbound gossip decode: on a payload that unmarshals as a `NodeData`,
`HandleMessage` and `GossipNodeData` (which reads the payload from its stream up to
the clean end) call the merge entrypoint exactly once with the decoded record; on a
payload that does not, they make no merge call and return; over a sequence of inbound
messages or streams the merge calls are exactly the decodable payloads, in order. -/
theorem inbound_gossip_decode (unmarshal : Bytes → Option NodeData)
    (calls : List NodeData) (payload : Bytes) :
    HandleMessage unmarshal calls payload = calls ++ (unmarshal payload).toList ∧
      (∀ (pre : List Bytes) (chunk : Bytes) (rest : List (Bytes × Option ReadError)),
        GossipNodeData unmarshal calls (readsEnding pre chunk ReadError.EOF rest) =
          some (calls ++ (unmarshal (pre.flatten ++ chunk)).toList)) ∧
      (∀ nodeData, unmarshal payload = some nodeData →
        HandleMessage unmarshal calls payload = calls ++ [nodeData] ∧
        GossipNodeData unmarshal calls (readsEnding [] payload ReadError.EOF []) =
          some (calls ++ [nodeData])) ∧
      (unmarshal payload = none →
        HandleMessage unmarshal calls payload = calls ∧
        GossipNodeData unmarshal calls (readsEnding [] payload ReadError.EOF []) =
          some calls) ∧
      (∀ msgs : List Bytes,
        dispatchMessages unmarshal msgs calls = calls ++ msgs.filterMap unmarshal) ∧
      (∀ payloads : List Bytes,
        dispatchStreams unmarshal
            (payloads.map (fun p => readsEnding [] p ReadError.EOF [])) calls =
          some (calls ++ payloads.filterMap unmarshal)) := by
  refine ⟨HandleMessage_eq unmarshal calls payload,
    fun pre chunk rest => GossipNodeData_clean unmarshal calls pre chunk rest, ?_, ?_,
    fun msgs => dispatchMessages_eq unmarshal msgs calls,
    fun payloads => dispatchStreams_eq unmarshal payloads calls⟩
  · intro nodeData h
    rw [HandleMessage_eq, GossipNodeData_clean]
    simp [h]
  · intro h
    rw [HandleMessage_eq, GossipNodeData_clean]
    simp [h]


/-- Witness for C8: the payload of record A in the table codec. -/
theorem inbound_gossip_decode_witness :
    HandleMessage tableUnmarshalNode [] [123, 65, 125] = [] ++ [recordA] ∧
      GossipNodeData tableUnmarshalNode [] (readsEnding [] [123, 65, 125] ReadError.EOF []) =
        some ([] ++ [recordA]) :=
  (inbound_gossip_decode tableUnmarshalNode [] [123, 65, 125]).2.2.1 recordA (by decide)

/-! ### Startup -/

theorem Start_nil_iff (env : StartEnv) :
    (Start env).1 = none ↔
      env.WithMDNS = none ∧ env.GetBootNodesMultiAddress = none ∧ env.WithDht = none ∧
        env.AddSubscriptionGossip = none := by
  obtain ⟨a, b, c, d, e⟩ := env
  cases a <;> cases b <;> cases c <;> cases d <;> cases e <;> simp [Start]

/-- C10, the code at the failing input. When only the subscription to the ad topic
fails, `Start` returns nil; and when the mDNS setup fails, `Start` returns the error
but `main` goes on to wait for cancellation with the stream handlers set and the two
dispatch loops running. -/
theorem start_failure_is_not_hard :
    (Start adSubscriptionFails).1 = none ∧
    (Start mdnsFails).1 = some "mdns failed" ∧
    main none mdnsFails =
      MainOutcome.waiting [StartEffect.setStreamHandlers, StartEffect.notifyNodeTracker,
        StartEffect.goListenToNodeTracker, StartEffect.goHandleDiscoveredPeers] := by
  decide


/-! ### Discovery reaction -/

theorem connectsAttempted_append (l₁ l₂ : List DiscoveryEvent) :
    connectsAttempted (l₁ ++ l₂) = connectsAttempted l₁ ++ connectsAttempted l₂ := by
  induction l₁ with
  | nil => rfl
  | cons ev l₁ ih => cases ev <;> simp [connectsAttempted, ih]

theorem streamOpensAttempted_append (l₁ l₂ : List DiscoveryEvent) :
    streamOpensAttempted (l₁ ++ l₂) =
      streamOpensAttempted l₁ ++ streamOpensAttempted l₂ := by
  induction l₁ with
  | nil => rfl
  | cons ev l₁ ih => cases ev <;> simp [streamOpensAttempted, ih]

theorem writersStarted_append (l₁ l₂ : List DiscoveryEvent) :
    writersStarted (l₁ ++ l₂) = writersStarted l₁ ++ writersStarted l₂ := by
  induction l₁ with
  | nil => rfl
  | cons ev l₁ ih => cases ev <;> simp [writersStarted, ih]

theorem readersStarted_append (l₁ l₂ : List DiscoveryEvent) :
    readersStarted (l₁ ++ l₂) = readersStarted l₁ ++ readersStarted l₂ := by
  induction l₁ with
  | nil => rfl
  | cons ev l₁ ih => cases ev <;> simp [readersStarted, ih]

theorem connectsAttempted_loop (Protocol : String) (ds : List Discovery) :
    connectsAttempted (handleDiscoveredPeers Protocol ds) =
      ds.map (fun d => d.peer.AddrInfo) := by
  induction ds with
  | nil => rfl
  | cons d ds ih =>
    rw [handleDiscoveredPeers, connectsAttempted_append, ih]
    unfold handlePeerEvent
    cases d.connectOk <;> cases d.newStreamOk <;> simp [connectsAttempted]

theorem streamOpensAttempted_loop (Protocol : String) (ds : List Discovery) :
    streamOpensAttempted (handleDiscoveredPeers Protocol ds) =
      (ds.filter (fun d => d.connectOk)).map (fun d => (d.peer.AddrInfo.ID, Protocol)) := by
  induction ds with
  | nil => rfl
  | cons d ds ih =>
    rw [handleDiscoveredPeers, streamOpensAttempted_append, ih]
    unfold handlePeerEvent
    cases h1 : d.connectOk <;> cases h2 : d.newStreamOk <;>
      simp [streamOpensAttempted, List.filter_cons, h1]

theorem writersStarted_loop (Protocol : String) (ds : List Discovery) :
    writersStarted (handleDiscoveredPeers Protocol ds) =
      (ds.filter (fun d => d.connectOk && d.newStreamOk)).map (fun d => d.peer) := by
  induction ds with
  | nil => rfl
  | cons d ds ih =>
    rw [handleDiscoveredPeers, writersStarted_append, ih]
    unfold handlePeerEvent
    cases h1 : d.connectOk <;> cases h2 : d.newStreamOk <;>
      simp [writersStarted, List.filter_cons, h1, h2]

theorem readersStarted_loop (Protocol : String) (ds : List Discovery) :
    readersStarted (handleDiscoveredPeers Protocol ds) =
      (ds.filter (fun d => d.connectOk && d.newStreamOk)).map (fun d => d.peer) := by
  induction ds with
  | nil => rfl
  | cons d ds ih =>
    rw [handleDiscoveredPeers, readersStarted_append, ih]
    unfold handlePeerEvent
    cases h1 : d.connectOk <;> cases h2 : d.newStreamOk <;>
      simp [readersStarted, List.filter_cons, h1, h2]

/-- C11. Discovery reaction: over every sequence of peer events consumed by
`handleDiscoveredPeers`, each event causes exactly one connect attempt, to that
event's address; an event whose connect fails causes nothing else, and the loop goes
on with the events after it; an event whose connect succeeds causes exactly one
attempt to open a stream to that peer on the liveness protocol and, when that
succeeds, exactly one writer task and one reader task over that stream, and none when
it fails. -/
theorem discovery_reaction (Protocol : String) (before after : List Discovery)
    (d : Discovery) :
    handleDiscoveredPeers Protocol (before ++ d :: after) =
        handleDiscoveredPeers Protocol before ++ handlePeerEvent Protocol d ++
          handleDiscoveredPeers Protocol after ∧
      connectsAttempted (handlePeerEvent Protocol d) = [d.peer.AddrInfo] ∧
      (d.connectOk = false →
        handlePeerEvent Protocol d = [DiscoveryEvent.connect d.peer.AddrInfo false]) ∧
      (d.connectOk = true →
        streamOpensAttempted (handlePeerEvent Protocol d) =
          [(d.peer.AddrInfo.ID, Protocol)]) ∧
      (d.connectOk = true → d.newStreamOk = true →
        handlePeerEvent Protocol d =
          [DiscoveryEvent.connect d.peer.AddrInfo true,
           DiscoveryEvent.newStream d.peer.AddrInfo.ID Protocol true,
           DiscoveryEvent.goWriteData d.peer d.peer.AddrInfo.ID,
           DiscoveryEvent.goReadData d.peer d.peer.AddrInfo.ID]) ∧
      (d.connectOk = true → d.newStreamOk = false →
        handlePeerEvent Protocol d =
          [DiscoveryEvent.connect d.peer.AddrInfo true,
           DiscoveryEvent.newStream d.peer.AddrInfo.ID Protocol false]) ∧
      (∀ ds : List Discovery,
        connectsAttempted (handleDiscoveredPeers Protocol ds) =
            ds.map (fun e => e.peer.AddrInfo) ∧
          streamOpensAttempted (handleDiscoveredPeers Protocol ds) =
            (ds.filter (fun e => e.connectOk)).map
              (fun e => (e.peer.AddrInfo.ID, Protocol)) ∧
          writersStarted (handleDiscoveredPeers Protocol ds) =
            (ds.filter (fun e => e.connectOk && e.newStreamOk)).map (fun e => e.peer) ∧
          readersStarted (handleDiscoveredPeers Protocol ds) =
            (ds.filter (fun e => e.connectOk && e.newStreamOk)).map (fun e => e.peer)) := by
  refine ⟨?_, ?_, ?_, ?_, ?_, ?_, fun ds => ⟨connectsAttempted_loop Protocol ds,
    streamOpensAttempted_loop Protocol ds, writersStarted_loop Protocol ds,
    readersStarted_loop Protocol ds⟩⟩
  · induction before with
    | nil => simp [handleDiscoveredPeers]
    | cons b before ih =>
      rw [List.cons_append, handleDiscoveredPeers, ih, handleDiscoveredPeers]
      simp [List.append_assoc]
  · unfold handlePeerEvent
    cases d.connectOk <;> cases d.newStreamOk <;> simp [connectsAttempted]
  · intro h
    simp [handlePeerEvent, h]
  · intro h
    unfold handlePeerEvent
    cases h2 : d.newStreamOk <;> simp [h, streamOpensAttempted]
  · intro h1 h2
    simp [handlePeerEvent, h1, h2]
  · intro h1 h2
    simp [handlePeerEvent, h1, h2]

/-- Witness for C11: a failed connect to peer B between two other discoveries of it. -/
theorem discovery_reaction_witness :
    handlePeerEvent "/masa/oracle" unreachableB =
        [DiscoveryEvent.connect unreachableB.peer.AddrInfo false] ∧
      handleDiscoveredPeers "/masa/oracle" ([streamlessB] ++ unreachableB :: [reachableB]) =
        handleDiscoveredPeers "/masa/oracle" [streamlessB] ++
          handlePeerEvent "/masa/oracle" unreachableB ++
          handleDiscoveredPeers "/masa/oracle" [reachableB] :=
  ⟨(discovery_reaction "/masa/oracle" [streamlessB] [reachableB] unreachableB).2.2.1 rfl,
   (discovery_reaction "/masa/oracle" [streamlessB] [reachableB] unreachableB).1⟩


/-! ### Slice bounds -/

theorem mem_pagesWritten_map_eventOf (marshal : NodeDataPage → Option Bytes)
    (f : Nat → NodeDataPage) (p : NodeDataPage) :
    ∀ (is : List Nat), p ∈ pagesWritten (is.map (fun i => eventOf marshal (f i))) →
      ∃ i ∈ is, p = f i
  | [], h => by simp [pagesWritten] at h
  | i :: is, h => by
    rw [List.map_cons] at h
    cases hm : marshal (f i) with
    | none =>
      have he : eventOf marshal (f i) = SendEvent.marshalError (f i) := by
        simp [eventOf, hm]
      rw [he, pagesWritten] at h
      obtain ⟨k, hk, hp⟩ := mem_pagesWritten_map_eventOf marshal f p is h
      exact ⟨k, List.mem_cons_of_mem _ hk, hp⟩
    | some j =>
      have he : eventOf marshal (f i) = SendEvent.write (f i) (j ++ [10]) := by
        simp [eventOf, hm]
      rw [he, pagesWritten, List.mem_cons] at h
      rcases h with h | h
      · exact ⟨i, List.mem_cons_self _ _, h⟩
      · obtain ⟨k, hk, hp⟩ := mem_pagesWritten_map_eventOf marshal f p is h
        exact ⟨k, List.mem_cons_of_mem _ hk, hp⟩

theorem endIndex_eq_min (K N i : Nat) :
    endIndex K N i = min N ((i + 1) * K) := by
  unfold endIndex startIndex
  rw [Nat.add_mul, Nat.one_mul]
  by_cases h : i * K + K > N
  · rw [if_pos h]; omega
  · rw [if_neg h]; omega

/-- C13. Slice bounds during a send: for a snapshot length `N` seen by `SendNodeData`,
a page size `K ≥ 1`, a page number `i < ceil(N/K)` and a snapshot of length `N' ≥ N`
seen by `SendNodeDataPage`, the bounds computed are `i*K` and `min(N', (i+1)*K)` with
`i*K < min(N', (i+1)*K) ≤ N'`, so the slice expression does not panic and the page is
not empty; and a send over a registry that never holds fewer than `N` records runs to
its end without panic and writes only non-empty pages. -/
theorem slice_bounds_in_range (K : Nat) (hK : 1 ≤ K) (N N' i : Nat)
    (hi : i < totalPagesOf K N) (hN : N ≤ N') :
    startIndex K i = i * K ∧
      endIndex K N' i = min N' ((i + 1) * K) ∧
      startIndex K i < endIndex K N' i ∧
      endIndex K N' i ≤ N' ∧
      (∀ allNodeData : List NodeData, allNodeData.length = N' →
        ∃ data, goSlice allNodeData (startIndex K i) (endIndex K N' i) = some data ∧
          data ≠ [] ∧
          buildPage K allNodeData i =
            some { Data := data, PageNumber := i, TotalPages := totalPagesOf K N',
                   TotalRecords := N' } ∧
          ∀ marshal : NodeDataPage → Option Bytes,
            SendNodeDataPage K marshal allNodeData i ≠ none) ∧
      (∀ (marshal : NodeDataPage → Option Bytes) (NewStream : String → Bool)
          (peerID : String) (reg : Nat → List NodeData),
        NewStream peerID = true → (reg 0).length = N → (∀ k, N ≤ (reg k).length) →
        ∃ log, SendNodeData K marshal NewStream reg peerID = SendOutcome.done log ∧
          ∀ p ∈ pagesWritten log, p.Data ≠ []) := by
  have hiK : i * K < N := (lt_totalPagesOf_iff hK N i).mp hi
  have hend := endIndex_eq_min K N' i
  have hlt : startIndex K i < endIndex K N' i := by
    rw [hend]
    unfold startIndex
    rw [Nat.add_mul, Nat.one_mul]
    omega
  refine ⟨rfl, hend, hlt, by rw [hend]; omega, ?_, ?_⟩
  · intro allNodeData hlen
    have hbuild := buildPage_eq (K := K) allNodeData i (by omega)
    have hdata : (pageAt K allNodeData i).Data.length =
        endIndex K N' i - startIndex K i := by
      rw [pageAt_data_length, hend, hlen]
      rfl
    refine ⟨(pageAt K allNodeData i).Data, ?_, ?_, ?_, ?_⟩
    · unfold goSlice
      rw [if_pos (Nat.le_of_lt hlt)]
      unfold pageAt
      simp only
      rw [recordsBetween_eq, hend, ← hlen]
      unfold startIndex
      congr 2
      rw [List.take_eq_take, Nat.add_mul, Nat.one_mul]
      omega
    · intro hnil
      rw [hnil, List.length_nil] at hdata
      omega
    · rw [hbuild, ← hlen]
      rfl
    · intro marshal
      rw [SendNodeDataPage_eq marshal allNodeData i (by omega)]
      exact Option.some_ne_none _
  · intro marshal NewStream peerID reg hopen h0 hge
    have hreach : ∀ j, j < totalPagesOf K (reg 0).length → j * K ≤ (reg (j + 1)).length := by
      intro j hj
      rw [h0] at hj
      have := (lt_totalPagesOf_iff hK N j).mp hj
      have := hge (j + 1)
      omega
    refine ⟨(List.range (totalPagesOf K (reg 0).length)).map
      (fun j => eventOf marshal (pageAt K (reg (j + 1)) j)), ?_, ?_⟩
    · unfold SendNodeData
      simp only [hopen, if_true]
      rw [sendLoop_eq marshal reg _ 0 [] (fun j _ hj => hreach j (by omega))]
      simp [List.range_eq_range']
    · intro p hp
      obtain ⟨j, hj, hpj⟩ := mem_pagesWritten_map_eventOf marshal
        (fun j => pageAt K (reg (j + 1)) j) p _ hp
      have hjlt := List.mem_range.mp hj
      rw [h0] at hjlt
      have hjK := (lt_totalPagesOf_iff hK N j).mp hjlt
      have hgej := hge (j + 1)
      intro hnil
      have hlen := pageAt_data_length K (reg (j + 1)) j
      rw [← hpj, hnil, List.length_nil, Nat.add_mul, Nat.one_mul] at hlen
      omega

/-- Witness for C13: page 1 of a send that saw two records, re-read with three. -/
theorem slice_bounds_in_range_witness :
    startIndex 1 1 < endIndex 1 3 1 ∧ endIndex 1 3 1 ≤ 3 ∧
      ∃ log, SendNodeData 1 blankMarshal openTransport growingRegistry "peerB" =
          SendOutcome.done log ∧
        ∀ p ∈ pagesWritten log, p.Data ≠ [] :=
  ⟨(slice_bounds_in_range 1 (by decide) 2 3 1 (by decide) (by decide)).2.2.1,
   (slice_bounds_in_range 1 (by decide) 2 3 1 (by decide) (by decide)).2.2.2.1,
   (slice_bounds_in_range 1 (by decide) 2 3 1 (by decide) (by decide)).2.2.2.2.2
     blankMarshal openTransport "peerB" growingRegistry rfl rfl (by
       intro k
       unfold growingRegistry
       split <;> decide)⟩


/-! ### The liveness reader -/

theorem ReadString_line :
    ∀ (l rest : Bytes), 10 ∉ l → ReadString (l ++ 10 :: rest) = (l ++ [10], some rest)
  | [], rest, _ => by simp [ReadString]
  | b :: l, rest, h => by
    have hb : b ≠ 10 := fun hb => h (by simp [hb])
    have hl : 10 ∉ l := fun hl => h (List.mem_cons_of_mem _ hl)
    rw [List.cons_append, ReadString, if_neg hb, ReadString_line l rest hl]
    rfl

theorem ReadString_tail : ∀ (t : Bytes), 10 ∉ t → ReadString t = (t, none)
  | [], _ => rfl
  | b :: t, h => by
    have hb : b ≠ 10 := fun hb => h (by simp [hb])
    have ht : 10 ∉ t := fun ht => h (List.mem_cons_of_mem _ ht)
    rw [ReadString, if_neg hb, ReadString_tail t ht]

theorem length_le_wireOf (lines : List Bytes) (tail : Bytes) :
    lines.length ≤ (wireOf lines tail).length := by
  induction lines with
  | nil => simp
  | cons l lines ih =>
    rw [wireOf_cons]
    simp only [List.length_cons, List.length_append]
    omega

theorem readDataLoop_lines (tail : Bytes) (htail : 10 ∉ tail) :
    ∀ (lines : List Bytes) (fuel : Nat) (echoed : List Bytes),
      (∀ l ∈ lines, 10 ∉ l) → lines.length < fuel →
      readDataLoop fuel (wireOf lines tail) echoed =
        some { echoed := echoed ++
                 (lines.filter (fun l => decide (l ≠ []))).map (fun l => l ++ [10]),
               ending := ReadEnd.readError }
  | [], fuel + 1, echoed, _, _ => by
    have : wireOf [] tail = tail := by simp [wireOf]
    rw [this, readDataLoop, ReadString_tail tail htail]
    simp
  | l :: lines, fuel + 1, echoed, hl, hfuel => by
    have h10 : 10 ∉ l := hl l (List.mem_cons_self _ _)
    have hrest : ∀ k ∈ lines, 10 ∉ k := fun k hk => hl k (List.mem_cons_of_mem _ hk)
    have hf : lines.length < fuel := by
      simp only [List.length_cons] at hfuel
      omega
    rw [wireOf_cons, readDataLoop, ReadString_line l _ h10]
    simp only
    rw [if_neg (by simp)]
    by_cases hblank : l = []
    · subst hblank
      rw [if_neg (by simp), readDataLoop_lines tail htail lines fuel echoed hrest hf]
      simp
    · rw [if_pos (by simpa using hblank),
        readDataLoop_lines tail htail lines fuel _ hrest hf]
      simp [List.filter_cons, hblank]

/-- C12, counterexample. The line `a`, a blank line and the line `b` arrive before the
read fails: `readData` echoes `a` and also `b`, the line after the blank one, and
returns only at the read error. -/
theorem reader_blank_line_counterexample :
    readData (wireOf [[97], [], [98]] []) =
        some { echoed := [[97, 10], [98, 10]], ending := ReadEnd.readError } ∧
      ReadString (wireOf [[], [98]] []) = ([10], some (wireOf [[98]] [])) := by
  decide

/-- C12, amended. For every sequence of newline-delimited lines arriving on a liveness
stream before its first read error, followed by any unfinished fragment, `readData`
ends the task, closing the stream, at that read error; a blank line does not end the
task and is not echoed; what it echoes is exactly the non-blank lines received before
the read error, in order. -/
theorem reader_ends_at_read_error (lines : List Bytes) (tail : Bytes)
    (hlines : ∀ l ∈ lines, 10 ∉ l) (htail : 10 ∉ tail) :
    readData (wireOf lines tail) =
      some { echoed := (lines.filter (fun l => decide (l ≠ []))).map (fun l => l ++ [10]),
             ending := ReadEnd.readError } := by
  unfold readData
  rw [readDataLoop_lines tail htail lines _ [] hlines
    (Nat.lt_succ_of_le (length_le_wireOf lines tail))]
  simp

/-- Witness for the amended C12: the lines `a`, blank, `b` and the fragment `c`. -/
theorem reader_ends_at_read_error_witness :
    readData (wireOf [[97], [], [98]] [99]) =
      some { echoed := ([[97], [], [98]].filter (fun l => decide (l ≠ []))).map
               (fun l => l ++ [10]),
             ending := ReadEnd.readError } :=
  reader_ends_at_read_error [[97], [], [98]] [99] (by decide) (by decide)

end Masa
